import Mathlib

/-!
# Cpp_Concurrency: the task queue of `synching_tasks.cpp`

A shallow embedding of the worker/main program of `src/synching_tasks.cpp`
(a global `std::deque` of packaged tasks, a mutex, a condition variable and a
`done` flag) as a small-step transition system, one step per C++ statement,
together with the consumer loop of `src/SynchingConcurrentOps.cc`.

The source file does not compile as written (`future` for `futures`,
`workerThread.join()` for `worker.join()`, a copy of a move-only
`std::packaged_task`, a missing semicolon); the embedding follows the
statements in the order in which they are written.
-/

namespace SynchingTasks

/-! ## Values -/

/-- Reduction of an integer to the range of a 32-bit two-complement `int`. -/
def wrapInt32 (z : Int) : Int := (z + 2147483648) % 4294967296 - 2147483648

/-- Source `heavyTask` (synching_tasks.cpp:14-19): `return value * value;`
(the sleep and the log line are not modelled). -/
def heavyTask (value : Int) : Int := wrapInt32 (value * value)

/-- Source `bound_op` (snippets.cpp:4): `[](int x, int y) { return x + y }`. -/
def bound_op (x y : Int) : Int := wrapInt32 (x + y)

/-! ## State -/

/-- Identity of a thread, as owner of `queueMutex`. -/
inductive Tid where
  | main
  | worker (i : Nat)
  deriving DecidableEq

/-- Result of running a callable: the value it returns, or the exception it
throws (identified by its message). -/
abbrev Outcome := Except String Int

/-- A `std::packaged_task<int()>`: the stored callable and the index of the
shared state that its future reads. -/
structure Task where
  fut : Nat
  call : Unit → Outcome

/-- Program points of `workerThread` (synching_tasks.cpp:21-34). -/
inductive WorkerPc where
  /-- the thread has not been started -/
  | notStarted
  /-- line 26: `std::unique_lock lock(queueMutex)` -/
  | lockQueue
  /-- line 27: `cv.wait(lock, pred)`, lock held, about to evaluate `pred` -/
  | waitPred
  /-- line 27: inside `cv.wait`, lock released, waiting to be woken and to re-lock -/
  | blocked
  /-- line 28: `if (done && taskQueue.empty()) break;` -/
  | checkDone
  /-- line 29: `task = taskQueue.front();` -/
  | takeFront
  /-- line 30: `taskQueue.pop_front();` -/
  | popFront
  /-- line 31: end of the scope of `lock` -/
  | unlock
  /-- line 32: `task();` -/
  | runTask
  /-- after `break`: the thread function has returned -/
  | exited
  /-- the thread has left the defined behaviour of the program: `front` or
  `pop_front` on an empty deque, or a call of an empty packaged task -/
  | undefinedBehaviour
  deriving DecidableEq

/-- Local state of one thread running `workerThread`. -/
structure Worker where
  pc : WorkerPc
  /-- the local `task` of line 24; `none` is the default-constructed task -/
  task : Option Task

/-- Program points of `main` (synching_tasks.cpp:36-66). -/
inductive MainPc where
  /-- line 38: `std::thread worker(workerThread);` -/
  | spawn
  /-- line 42: `i < 10` -/
  | loopTest
  /-- lines 43-44: construct the packaged task, keep its future -/
  | mkTask
  /-- line 46: `std::lock_guard lock(queueMutex);` -/
  | lockPush
  /-- line 47: `taskQueue.push_back(std::move(task));` -/
  | push
  /-- line 48: end of the scope of the lock guard -/
  | unlockPush
  /-- line 49: `cv.notify_one();`, then `i++` -/
  | notifyPush
  /-- lines 52-54: `fut.get()` for the next future -/
  | getLoop
  /-- line 56 -/
  | lockDone
  /-- line 57: `done = true;` -/
  | setDone
  /-- line 58 -/
  | unlockDone
  /-- line 60: `cv.notify_one();` -/
  | notifyDone
  /-- line 62: join of the worker thread -/
  | join
  /-- lines 63-64 -/
  | finished
  /-- an exception rethrown by `fut.get()` has left `main` -/
  | terminated
  deriving DecidableEq

/-- Whole program state: the globals of lines 8-11, the shared states of the
futures, the threads, and three history lists used only in statements. -/
structure Sys where
  /-- `std::deque<std::packaged_task<int()>> taskQueue` -/
  taskQueue : List Task
  /-- `std::mutex queueMutex`: its owner, if locked -/
  queueMutex : Option Tid
  /-- `std::condition_variable cv`: the workers waiting for a notification -/
  cvWaiters : List Nat
  /-- `bool done` -/
  done : Bool
  /-- shared states of the futures: the stored outcome once ready -/
  shared : Nat → Option Outcome
  /-- number of shared states allocated so far -/
  sharedCount : Nat
  /-- threads running `workerThread` -/
  workers : Nat → Worker
  mainPc : MainPc
  /-- loop variable `i` of line 42 -/
  i : Int
  /-- local `task` of line 43; `none` once moved from -/
  mainTask : Option Task
  /-- `std::vector<std::future<int>> futures`: indices of shared states -/
  futures : List Nat
  /-- position of the range-for of line 52 -/
  futPos : Nat
  /-- values printed by line 53 -/
  printed : List Int
  /-- history: the tasks in the order of `push_back` -/
  pushedLog : List Task
  /-- history: the tasks in the order of `pop_front` -/
  dequeuedLog : List Task
  /-- history: the tasks in the order of invocation -/
  executedLog : List Task

/-- State at program start: lines 8-11 and the entry of `main`. -/
def initSys : Sys where
  taskQueue := []
  queueMutex := none
  cvWaiters := []
  done := false
  shared := fun _ => none
  sharedCount := 0
  workers := fun _ => ⟨.notStarted, none⟩
  mainPc := .spawn
  i := 1
  mainTask := none
  futures := []
  futPos := 0
  printed := []
  pushedLog := []
  dequeuedLog := []
  executedLog := []

/-! ## Statements on the shared state -/

/-- Predicate of the wait of line 27: `!taskQueue.empty() || done`. -/
def waitPredicate (s : Sys) : Bool := !s.taskQueue.isEmpty || s.done

/-- Lock acquisition of `queueMutex` by thread `t`: possible only when free. -/
def lockMutex (t : Tid) (s : Sys) : Option Sys :=
  match s.queueMutex with
  | none => some { s with queueMutex := some t }
  | some _ => none

/-- Release of `queueMutex`. -/
def unlockMutex (s : Sys) : Sys := { s with queueMutex := none }

/-- Line 47: `taskQueue.push_back(std::move(task))`. -/
def pushBack (t : Task) (s : Sys) : Sys :=
  { s with taskQueue := s.taskQueue ++ [t], pushedLog := s.pushedLog ++ [t] }

/-- Line 57: `done = true`. -/
def setDone (s : Sys) : Sys := { s with done := true }

/-- Lines 49 and 60: `cv.notify_one()`: one waiting thread, if any, stops
waiting; `pick` resolves which one. -/
def notifyOne (pick : Nat) (s : Sys) : Sys :=
  match s.cvWaiters with
  | [] => s
  | w :: ws => { s with cvWaiters := (w :: ws).eraseIdx (pick % (w :: ws).length) }

/-- Invocation of a packaged task: the callable runs and its return value, or
the exception it throws, is stored in the shared state of the future. -/
def invoke (t : Task) (s : Sys) : Sys :=
  { s with shared := Function.update s.shared t.fut (some (t.call ())),
           executedLog := s.executedLog ++ [t] }

/-- Lines 43-44: construction of a packaged task around `call`; its future
reads the next free shared state. -/
def packageTask (call : Unit → Outcome) (s : Sys) : Task × Sys :=
  (⟨s.sharedCount, call⟩, { s with sharedCount := s.sharedCount + 1 })

/-- Line 53, `fut.get()` on the future of shared state `k`: the stored value
is returned, a stored exception is rethrown; `none` while the caller has to
wait. -/
def futureGet (k : Nat) (s : Sys) : Option Outcome := s.shared k

/-- Replace the local state of worker `i`. -/
def setWorker (i : Nat) (w : Worker) (s : Sys) : Sys :=
  { s with workers := Function.update s.workers i w }

/-! ## Steps of the threads -/

/-- One statement of worker `i`; `none` when the thread cannot move. -/
def workerStep (i : Nat) (s : Sys) : Option Sys :=
  let w := s.workers i
  match w.pc with
  | .notStarted => none
  | .lockQueue =>
    (lockMutex (.worker i) s).map (setWorker i ⟨.waitPred, none⟩)
  | .waitPred =>
    if waitPredicate s then some (setWorker i { w with pc := .checkDone } s)
    else some (setWorker i { w with pc := .blocked }
      { unlockMutex s with cvWaiters := s.cvWaiters ++ [i] })
  | .blocked =>
    if i ∈ s.cvWaiters then none
    else (lockMutex (.worker i) s).map (setWorker i { w with pc := .waitPred })
  | .checkDone =>
    if s.done && s.taskQueue.isEmpty then
      some (setWorker i { w with pc := .exited } (unlockMutex s))
    else some (setWorker i { w with pc := .takeFront } s)
  | .takeFront =>
    match s.taskQueue with
    | [] => some (setWorker i { w with pc := .undefinedBehaviour } s)
    | t :: _ => some (setWorker i ⟨.popFront, some t⟩ s)
  | .popFront =>
    match s.taskQueue with
    | [] => some (setWorker i { w with pc := .undefinedBehaviour } s)
    | t :: rest =>
      some (setWorker i { w with pc := .unlock }
        { s with taskQueue := rest, dequeuedLog := s.dequeuedLog ++ [t] })
  | .unlock => some (setWorker i { w with pc := .runTask } (unlockMutex s))
  | .runTask =>
    match w.task with
    | none => some (setWorker i { w with pc := .undefinedBehaviour } s)
    | some t => some (setWorker i ⟨.lockQueue, none⟩ (invoke t s))
  | .exited => none
  | .undefinedBehaviour => none

/-- One statement of `main`; `none` when the thread cannot move. -/
def mainStep (pick : Nat) (s : Sys) : Option Sys :=
  match s.mainPc with
  | .spawn => some { setWorker 0 ⟨.lockQueue, none⟩ s with mainPc := .loopTest, i := 1 }
  | .loopTest =>
    if s.i < 10 then some { s with mainPc := .mkTask }
    else some { s with mainPc := .getLoop, futPos := 0 }
  | .mkTask =>
    let v := s.i
    let (t, s1) := packageTask (fun _ => .ok (heavyTask v)) s
    some { s1 with mainTask := some t, futures := s.futures ++ [t.fut], mainPc := .lockPush }
  | .lockPush => (lockMutex .main s).map fun s1 => { s1 with mainPc := .push }
  | .push =>
    match s.mainTask with
    | none => none
    | some t => some { pushBack t s with mainTask := none, mainPc := .unlockPush }
  | .unlockPush => some { unlockMutex s with mainPc := .notifyPush }
  | .notifyPush => some { notifyOne pick s with mainPc := .loopTest, i := wrapInt32 (s.i + 1) }
  | .getLoop =>
    match s.futures.get? s.futPos with
    | none => some { s with mainPc := .lockDone }
    | some k =>
      match futureGet k s with
      | none => none
      | some (.ok v) => some { s with printed := s.printed ++ [v], futPos := s.futPos + 1 }
      | some (.error _) => some { s with mainPc := .terminated }
  | .lockDone => (lockMutex .main s).map fun s1 => { s1 with mainPc := .setDone }
  | .setDone => some { setDone s with mainPc := .unlockDone }
  | .unlockDone => some { unlockMutex s with mainPc := .notifyDone }
  | .notifyDone => some { notifyOne pick s with mainPc := .join }
  | .join =>
    if (s.workers 0).pc = .exited then some { s with mainPc := .finished } else none
  | .finished => none
  | .terminated => none

/-- Scheduler choices: which thread moves next. -/
inductive Label where
  /-- the next statement of `main`; `pick` resolves `notify_one` -/
  | main (pick : Nat)
  /-- the next statement of worker `i` -/
  | worker (i : Nat)
  /-- a spurious wake-up of worker `i` inside `cv.wait` -/
  | spurious (i : Nat)

/-- One step of the system. -/
def step (l : Label) (s : Sys) : Option Sys :=
  match l with
  | .main pick => mainStep pick s
  | .worker i => workerStep i s
  | .spurious i =>
    if i ∈ s.cvWaiters then some { s with cvWaiters := s.cvWaiters.erase i } else none

/-- A step that leaves the state as it is when the chosen thread cannot move. -/
def stepOrStay (l : Label) (s : Sys) : Sys := (step l s).getD s

/-- Execution of a schedule. -/
def run : List Label → Sys → Sys
  | [], s => s
  | l :: ls, s => run ls (stepOrStay l s)

/-- Worker `i` alone for `n` statements. -/
def workerRun (i : Nat) : Nat → Sys → Sys
  | 0, s => s
  | n + 1, s => workerRun i n (stepOrStay (.worker i) s)

/-- Futures of a list of tasks. -/
def futs (q : List Task) : List Nat := q.map Task.fut

/-! ## Blocks of `main` run without interruption -/

/-- Lines 45-49 in one piece: lock, `push_back`, unlock, `notify_one`. -/
def enqueueBlock (t : Task) (pick : Nat) (s : Sys) : Option Sys :=
  (lockMutex .main s).map fun s1 => notifyOne pick (unlockMutex (pushBack t s1))

/-- Lines 55-60 in one piece: lock, `done = true`, unlock, `notify_one`. -/
def closeBlock (pick : Nat) (s : Sys) : Option Sys :=
  (lockMutex .main s).map fun s1 => notifyOne pick (unlockMutex (setDone s1))

/-- The block of lines 45-49 for each task of a list, in order. -/
def enqueueAll (pick : Nat) : List Task → Sys → Option Sys
  | [], s => some s
  | t :: ts, s => (enqueueBlock t pick s).bind (enqueueAll pick ts)

/-- Failure of a submission (spec 4.4 and 7). -/
inductive PoolError where
  | poolShuttingDown
  deriving DecidableEq

/-- Modelled from the spec: `submit` of the thread pool, which snippets.cpp
only declares (lines 1-2 and 26-27, no body). Spec 4.4: it "constructs a Task
binding the callable and arguments, allocates its ResultChannel, enqueues the
Task", "returns the read side of the ResultChannel" and "fails with
`PoolShuttingDown` if called after `shutdown()` has begun". The task, its shared
state and the enqueue are those of synching_tasks.cpp, lines 43-49; the result
is `none` while another thread owns the queue lock. -/
def submit {α : Type} (f : α → Outcome) (args : α) (pick : Nat) (s : Sys) :
    Option (Except PoolError (Nat × Sys)) :=
  if s.done then some (.error .poolShuttingDown)
  else
    let (t, s1) := packageTask (fun _ => f args) s
    (enqueueBlock t pick s1).map fun s2 => .ok (t.fut, s2)

/-- A callable that returns normally: a pure, exception-free function. -/
def pureCall {α : Type} (f : α → Int) : α → Outcome := fun a => .ok (f a)

/-- Shared states after the tasks of `q` have been invoked in order. -/
def storeAll : List Task → (Nat → Option Outcome) → Nat → Option Outcome
  | [], sh => sh
  | t :: ts, sh => storeAll ts (Function.update sh t.fut (some (t.call ())))

/-! ## Predicates used in the statements -/

/-- Program points of `workerThread` at which `lock` owns `queueMutex`. -/
def holdsLock : WorkerPc → Bool
  | .waitPred | .checkDone | .takeFront | .popFront | .unlock => true
  | _ => false

/-- Program points of `main` inside one of the two lock-guard scopes. -/
def mainHoldsLock : MainPc → Bool
  | .push | .unlockPush | .setDone | .unlockDone => true
  | _ => false

/-- What holds of worker `i` in every reachable state. -/
structure WorkerInv (s : Sys) (i : Nat) : Prop where
  owns : s.queueMutex = some (.worker i) ↔ holdsLock (s.workers i).pc = true
  predChecked : (s.workers i).pc = .checkDone → waitPredicate s = true
  frontSafe : (s.workers i).pc = .takeFront → s.taskQueue ≠ []
  popSafe : (s.workers i).pc = .popFront →
    ∃ t rest, s.taskQueue = t :: rest ∧ (s.workers i).task = some t
  taskHeld : (s.workers i).pc = .unlock ∨ (s.workers i).pc = .runTask →
    (s.workers i).task ≠ none
  defined : (s.workers i).pc ≠ .undefinedBehaviour

/-- Consistency of the mutex with the program points of all threads. -/
structure LockInv (s : Sys) : Prop where
  worker : ∀ i, WorkerInv s i
  mainOwns : s.queueMutex = some .main ↔ mainHoldsLock s.mainPc = true
  unspawned : s.mainPc = .spawn → (s.workers 0).pc = .notStarted

/-- Program points of `main` after the store of line 57. -/
def mainAfterClose : MainPc → Bool
  | .unlockDone | .notifyDone | .join | .finished => true
  | _ => false

/-- Facts about the threads of `main`: it starts one worker, so at most that
worker waits on `cv`, and `done` is set from line 57 on. -/
structure ProgInv (s : Sys) : Prop where
  single : ∀ j, j ≠ 0 → (s.workers j).pc = .notStarted
  waiters : s.cvWaiters = [] ∨ (s.cvWaiters = [0] ∧ (s.workers 0).pc = .blocked)
  closed : mainAfterClose s.mainPc = true → s.done = true

/-- The task a worker has removed from the queue and not yet invoked. -/
def inHand (w : Worker) : List Task :=
  match w.pc with
  | .unlock | .runTask => w.task.toList
  | _ => []

/-- Program points of `main` after the loop of lines 42-50. -/
def pastLoop : MainPc → Bool
  | .getLoop | .lockDone | .setDone | .unlockDone | .notifyDone | .join | .finished
  | .terminated => true
  | _ => false

/-- Program points of `main` at which its local `task` holds a packaged task. -/
def mainHasTask : MainPc → Bool
  | .lockPush | .push => true
  | _ => false

/-- Facts about the histories in `main`: the queue is first-in first-out, the
one worker invokes what it dequeues, in that order, and the tasks built so far
are the pushed ones and the one `main` still holds. -/
structure LogInv (s : Sys) : Prop where
  fifo : s.dequeuedLog ++ s.taskQueue = s.pushedLog
  exec : s.executedLog ++ inHand (s.workers 0) = s.dequeuedLog
  exitedEmpty : (s.workers 0).pc = .exited → s.taskQueue = [] ∧ s.done = true
  built : futs s.pushedLog ++ futs s.mainTask.toList = List.range s.sharedCount
  mainEmpty : mainHasTask s.mainPc = false → s.mainTask = none
  allBuilt : pastLoop s.mainPc = true → s.sharedCount = 9
  joined : s.mainPc = .finished → (s.workers 0).pc = .exited

/-- Worker `i` is inside the wait of line 27, waiting for a notification as the
only waiter, and the mutex is free. -/
def Waiting (i : Nat) (s : Sys) : Prop :=
  s.queueMutex = none ∧ (s.workers i).pc = .blocked ∧ s.cvWaiters = [i]

/-- Worker `i` is at the top of its loop and the mutex is free. -/
def Idle (i : Nat) (s : Sys) : Prop := (s.workers i).pc = .lockQueue ∧ s.queueMutex = none

/-- Worker `i` is about to take the lock, the mutex is free: either at the top
of its loop, or inside the wait of line 27 and no longer waiting for a
notification. -/
def Ready (i : Nat) (s : Sys) : Prop :=
  s.queueMutex = none ∧
    ((s.workers i).pc = .lockQueue ∨ ((s.workers i).pc = .blocked ∧ i ∉ s.cvWaiters))

/-- State after one full iteration of the loop body on the queue `t :: rest`. -/
def afterIteration (i : Nat) (t : Task) (rest : List Task) (s : Sys) : Sys :=
  setWorker i ⟨.lockQueue, none⟩
    (invoke t { s with taskQueue := rest, dequeuedLog := s.dequeuedLog ++ [t] })

/-- Relation between the loop variable `i` of `main`, the number `n` of
packaged tasks built so far and the position `p` of the range-for of line 52,
by program point. -/
def loopRel (pc : MainPc) (i : Int) (n p : Nat) : Prop :=
  match pc with
  | .spawn => n = 0 ∧ p = 0
  | .loopTest => i = n + 1 ∧ p = 0
  | .mkTask => i = n + 1 ∧ i < 10 ∧ p = 0
  | .lockPush | .push | .unlockPush | .notifyPush => i = n ∧ p = 0
  | _ => True

/-- Facts about the values in `main`: the task whose future reads shared
state `k` computes `heavyTask (k + 1)`. -/
structure ValInv (s : Sys) : Prop where
  queued : ∀ t ∈ s.taskQueue, t.fut < s.sharedCount ∧ t.call () = .ok (heavyTask (t.fut + 1))
  held : ∀ j t, (s.workers j).task = some t →
    t.fut < s.sharedCount ∧ t.call () = .ok (heavyTask (t.fut + 1))
  mainHeld : ∀ t, s.mainTask = some t →
    t.fut < s.sharedCount ∧ t.call () = .ok (heavyTask (t.fut + 1))
  ready : ∀ k v, s.shared k = some v → k < s.sharedCount ∧ v = .ok (heavyTask (k + 1))
  futuresRange : s.futures = List.range s.sharedCount
  count : s.sharedCount ≤ 9
  loopVar : loopRel s.mainPc s.i s.sharedCount s.futPos
  printedPrefix : s.futPos ≤ s.sharedCount ∧
    s.printed = (List.range s.futPos).map fun (k : Nat) => heavyTask ((k : Int) + 1)

/-! ## Sample states -/

/-- The program right after line 38: one worker started, nothing queued. -/
def started : Sys := stepOrStay (.main 0) initSys

/-- A fair schedule: `main` and worker 0 take turns, `n` times. -/
def roundRobin : Nat → List Label
  | 0 => []
  | n + 1 => .main 0 :: .worker 0 :: roundRobin n

/-- Two threads running `workerThread`, both inside the wait of line 27 on an
empty queue. -/
def twoWaiting : Sys :=
  run [.worker 0, .worker 0, .worker 1, .worker 1] (setWorker 1 ⟨.lockQueue, none⟩ started)

/-- Three packaged tasks around `heavyTask`, as lines 43-44 build them. -/
def sampleTasks : List Task :=
  [⟨0, fun _ => .ok (heavyTask 1)⟩, ⟨1, fun _ => .ok (heavyTask 2)⟩,
    ⟨2, fun _ => .ok (heavyTask 3)⟩]

end SynchingTasks


/-! # The data queue of `SynchingConcurrentOps.cc` (lines 82-131)

`data_chunk`, `more_data_to_prepare`, `prepare_data`, `process` and
`is_last_chunk` are not declared in the repository: the chunk type and
`is_last_chunk` are parameters, the results of `more_data_to_prepare()` and
`prepare_data()` come with the scheduler's choice, and `process(data)` is
recorded in a history list. The predicate of line 122 is written
`return != data_queue.empty();` and line 123 reads `data.queue.front()`; they
are taken as `!data_queue.empty()` and `data_queue.front()`. -/

namespace SynchingConcurrentOps

/-- Owner of `mut`: one of the two threads. -/
inductive Owner where
  | preparation
  | processing
  deriving DecidableEq

/-- Program points of `data_preparation_thread` (lines 86-100). -/
inductive PrepPc where
  /-- line 88: `while(more_data_to_prepare())` -/
  | loopTest
  /-- line 90: `data_chunk const data = prepare_data();` -/
  | prepare
  /-- line 93: `std::lock_guard<std::mutex> lk(mut);` -/
  | lock
  /-- line 94: `data_queue.push(data);` -/
  | push
  /-- line 95: end of the scope of `lk` -/
  | unlock
  /-- line 98: `data_cond.notify_one();` -/
  | notify
  /-- the loop has ended -/
  | returned
  deriving DecidableEq

/-- Program points of `data_processing_thread` (lines 102-131). -/
inductive ProcPc where
  /-- line 106: `std::unique_lock<std::mutex> lk(mut);` -/
  | lock
  /-- lines 120-122: `data_cond.wait(lk, pred)`, lock held, about to evaluate `pred` -/
  | waitPred
  /-- inside the wait, lock released, waiting to be woken and to re-lock -/
  | blocked
  /-- line 123: `data_chunk data = data_queue.front();` -/
  | front
  /-- line 124: `data_queue.pop();` -/
  | pop
  /-- line 125: `lk.unlock();` -/
  | unlock
  /-- line 126: `process(data);` -/
  | process
  /-- lines 127-128: `if (is_last_chunk(data)) break;` -/
  | lastTest
  /-- after `break` -/
  | returned
  /-- `front` or `pop` on an empty queue was executed -/
  | undefinedBehaviour
  deriving DecidableEq

/-- The globals of lines 82-85 and the two threads. -/
structure State (Chunk : Type) where
  /-- `std::queue<data_chunk> data_queue` -/
  data_queue : List Chunk
  /-- `std::mutex mut`: its owner, if locked -/
  mutOwner : Option Owner
  /-- `data_cond`: the processing thread waits for a notification -/
  waiting : Bool
  prepPc : PrepPc
  /-- local `data` of line 90 -/
  prepData : Option Chunk
  procPc : ProcPc
  /-- local `data` of line 123 -/
  procData : Option Chunk
  /-- history: the arguments of `process`, in order -/
  processed : List Chunk

/-- Both threads at their first statement, nothing queued. -/
def init (Chunk : Type) : State Chunk where
  data_queue := []
  mutOwner := none
  waiting := false
  prepPc := .loopTest
  prepData := none
  procPc := .lock
  procData := none
  processed := []

/-- Scheduler choices. -/
inductive Label (Chunk : Type) where
  /-- the next statement of `data_preparation_thread`; `more` is the result of
  `more_data_to_prepare()` and `chunk` that of `prepare_data()`, when called -/
  | preparation (more : Bool) (chunk : Chunk)
  /-- the next statement of `data_processing_thread` -/
  | processing
  /-- a spurious wake-up inside the wait -/
  | spurious

variable {Chunk : Type}

/-- One statement of `data_preparation_thread`. -/
def prepStep (more : Bool) (chunk : Chunk) (s : State Chunk) : Option (State Chunk) :=
  match s.prepPc with
  | .loopTest =>
    if more then some { s with prepPc := .prepare } else some { s with prepPc := .returned }
  | .prepare => some { s with prepData := some chunk, prepPc := .lock }
  | .lock =>
    match s.mutOwner with
    | none => some { s with mutOwner := some .preparation, prepPc := .push }
    | some _ => none
  | .push =>
    match s.prepData with
    | none => none
    | some d => some { s with data_queue := s.data_queue ++ [d], prepPc := .unlock }
  | .unlock => some { s with mutOwner := none, prepPc := .notify }
  | .notify => some { s with waiting := false, prepData := none, prepPc := .loopTest }
  | .returned => none

/-- One statement of `data_processing_thread`. -/
def procStep (is_last_chunk : Chunk → Bool) (s : State Chunk) : Option (State Chunk) :=
  match s.procPc with
  | .lock =>
    match s.mutOwner with
    | none => some { s with mutOwner := some .processing, procPc := .waitPred }
    | some _ => none
  | .waitPred =>
    if !s.data_queue.isEmpty then some { s with procPc := .front }
    else some { s with mutOwner := none, waiting := true, procPc := .blocked }
  | .blocked =>
    if s.waiting then none
    else
      match s.mutOwner with
      | none => some { s with mutOwner := some .processing, procPc := .waitPred }
      | some _ => none
  | .front =>
    match s.data_queue with
    | [] => some { s with procPc := .undefinedBehaviour }
    | d :: _ => some { s with procData := some d, procPc := .pop }
  | .pop =>
    match s.data_queue with
    | [] => some { s with procPc := .undefinedBehaviour }
    | _ :: rest => some { s with data_queue := rest, procPc := .unlock }
  | .unlock => some { s with mutOwner := none, procPc := .process }
  | .process =>
    match s.procData with
    | none => none
    | some d => some { s with processed := s.processed ++ [d], procPc := .lastTest }
  | .lastTest =>
    match s.procData with
    | none => none
    | some d =>
      if is_last_chunk d then some { s with procPc := .returned }
      else some { s with procData := none, procPc := .lock }
  | .returned => none
  | .undefinedBehaviour => none

/-- One step of the two-thread system. -/
def step (is_last_chunk : Chunk → Bool) (l : Label Chunk) (s : State Chunk) :
    Option (State Chunk) :=
  match l with
  | .preparation more chunk => prepStep more chunk s
  | .processing => procStep is_last_chunk s
  | .spurious => if s.waiting then some { s with waiting := false } else none

/-- Execution of a schedule; a thread that cannot move leaves the state as it is. -/
def run (is_last_chunk : Chunk → Bool) : List (Label Chunk) → State Chunk → State Chunk
  | [], s => s
  | l :: ls, s => run is_last_chunk ls ((step is_last_chunk l s).getD s)

/-- Program points of `data_processing_thread` at which `lk` owns `mut`. -/
def procHoldsLock : ProcPc → Bool
  | .waitPred | .front | .pop | .unlock => true
  | _ => false

/-- Program points of `data_preparation_thread` at which `lk` owns `mut`. -/
def prepHoldsLock : PrepPc → Bool
  | .push | .unlock => true
  | _ => false

/-- What holds in every reachable state of the two threads. -/
structure Inv (s : State Chunk) : Prop where
  procOwns : s.mutOwner = some .processing ↔ procHoldsLock s.procPc = true
  prepOwns : s.mutOwner = some .preparation ↔ prepHoldsLock s.prepPc = true
  nonEmpty : s.procPc = .front ∨ s.procPc = .pop → s.data_queue ≠ []
  defined : s.procPc ≠ .undefinedBehaviour

/-- A sample schedule: two chunks are prepared while the processing thread runs. -/
def sampleSchedule : List (Label Nat) :=
  [.processing, .processing, .preparation true 7, .preparation true 7,
   .preparation true 7, .preparation true 7, .preparation true 7, .preparation true 7,
   .processing, .processing, .processing, .processing, .processing]

end SynchingConcurrentOps

/-! # Futures as objects (`std::future`, `std::shared_future`)

`main` of `synching_tasks.cpp` keeps `std::future<int>` objects and calls
`get()` once on each. The notes of `SynchingConcurrentOps.cc` (lines 407-444)
say what `get()` does: a stored exception is thrown by `get()`, "after the
first call to get() there's no value left to retrieve", and several
`std::shared_future` objects may refer to the same state. -/

namespace SynchingTasks

/-- A `std::future<int>` object: the shared state it refers to, or `none` when
it refers to none (`valid()` is false). -/
structure Future where
  state : Option Nat
  deriving DecidableEq

/-- What a call of `get()` gives its caller. -/
inductive GetResult where
  /-- the stored value is returned -/
  | returned (v : Int)
  /-- the stored exception is thrown -/
  | rethrown (e : String)
  /-- the object refers to no shared state: there is nothing to retrieve -/
  | noState
  deriving DecidableEq

/-- The result of `get()` for a stored outcome. -/
def GetResult.ofOutcome : Outcome → GetResult
  | .ok v => .returned v
  | .error e => .rethrown e

/-- `std::future::get()`: waits until the shared state is ready (`none` while
the caller has to wait), hands over the stored outcome and releases the shared
state, so that the object refers to none afterwards. -/
def Future.get (f : Future) (s : Sys) : Option (GetResult × Future) :=
  match f.state with
  | none => some (.noState, f)
  | some k =>
    match futureGet k s with
    | none => none
    | some o => some (.ofOutcome o, ⟨none⟩)

/-- A `std::shared_future<int>` object: the shared state it refers to. -/
structure SharedFuture where
  state : Nat
  deriving DecidableEq

/-- `std::shared_future::get()`: waits until the shared state is ready and
gives the stored outcome; the object keeps referring to the state. -/
def SharedFuture.get (f : SharedFuture) (s : Sys) : Option (GetResult × SharedFuture) :=
  (futureGet f.state s).map fun o => (.ofOutcome o, f)

/-- The future on which a step completes a call of `get()`: a step of `main`
at line 53 while the future at the position of the range-for is ready. -/
def getCall (l : Label) (s : Sys) : Option Nat :=
  match l with
  | .main _ =>
    match s.mainPc with
    | .getLoop =>
      match s.futures.get? s.futPos with
      | none => none
      | some k => if (futureGet k s).isSome then some k else none
    | _ => none
  | _ => none

/-- The calls of `get()` completed along a schedule, in the order in which they
are made. -/
def getCalls : List Label → Sys → List Nat
  | [], _ => []
  | l :: ls, s => (getCall l s).toList ++ getCalls ls (stepOrStay l s)

/-- Program points of `main` after the range-for of lines 52-54. -/
def readsDone : MainPc → Bool
  | .lockDone | .setDone | .unlockDone | .notifyDone | .join | .finished => true
  | _ => false

/-- Facts about the range-for of lines 52-54: `main` leaves it only at the end
of `futures`, and no `get()` of `main` throws. -/
structure ReadInv (s : Sys) : Prop where
  allRead : readsDone s.mainPc = true → s.futPos = s.sharedCount
  noRethrow : s.mainPc ≠ .terminated

/-- Three packaged tasks, the second of which throws. -/
def mixedTasks : List Task :=
  [⟨0, fun _ => .ok (heavyTask 2)⟩, ⟨1, fun _ => .error "task failed"⟩,
    ⟨2, fun _ => .ok (heavyTask 3)⟩]

/-- The started program with the three tasks of `mixedTasks` queued. -/
def withFailure : Sys := (enqueueAll 0 mixedTasks started).getD started

/-- Two started workers, nothing queued. -/
def twoStarted : Sys := setWorker 1 ⟨.lockQueue, none⟩ started

end SynchingTasks

/-! # `thread_guard` of `Tutorial_2.cc` (lines 34-63) -/

namespace Tutorial2

/-- A `std::thread` object and the thread it refers to. -/
structure Thread where
  /-- `joinable()`: the object refers to a thread of execution -/
  joinable : Bool
  /-- statements that the thread function still has to run; the thread
  function is taken to terminate -/
  remaining : Nat
  /-- number of calls of `join()` that have returned on this object -/
  joins : Nat
  deriving DecidableEq

/-- `std::thread t(f)`: a new thread whose function has `n` statements to run. -/
def Thread.start (n : Nat) : Thread := ⟨true, n, 0⟩

/-- `t.join()`: waits until the thread has finished, after which the object is
no longer joinable; on an object that is not joinable the call throws
`std::system_error`. -/
def Thread.join (t : Thread) : Except String Thread :=
  if t.joinable then .ok { joinable := false, remaining := 0, joins := t.joins + 1 }
  else .error "std::system_error: invalid_argument"

/-- `t.detach()` (line 25): the thread runs on, the object no longer refers to it. -/
def Thread.detach (t : Thread) : Except String Thread :=
  if t.joinable then .ok { t with joinable := false }
  else .error "std::system_error: invalid_argument"

/-- Class `thread_guard` (lines 36-52): it holds a reference to a thread; the
referenced object is kept as the state of the guard. -/
structure thread_guard where
  t : Thread
  deriving DecidableEq

/-- The destructor, lines 45-51 (`isjoinable` is read as `joinable`):
`if (t.joinable()) { t.join(); }`; the result is the referenced thread
object afterwards. -/
def thread_guard.destroy (g : thread_guard) : Except String Thread :=
  if g.t.joinable then g.t.join else .ok g.t

/-- Function `f` (lines 56-63) up to the end of its scope: the thread is
started, guarded, `do_something_else()` runs, then the guard is destroyed. -/
def f (threadStatements : Nat) : Except String Thread :=
  let t := Thread.start threadStatements
  let g : thread_guard := ⟨t⟩
  g.destroy

end Tutorial2

/-! # `std::atomic_flag` of `MemoryModel_AtomicTypes.cc` (lines 113-116, 203-234)

One thread, so the memory-order tags play no part. -/

namespace MemoryModelAtomicTypes

/-- A `std::atomic_flag`: set or clear. -/
structure atomic_flag where
  isSet : Bool
  deriving DecidableEq

/-- `ATOMIC_FLAG_INIT` (line 204): "This initializes the flag to a clear state." -/
def ATOMIC_FLAG_INIT : atomic_flag := ⟨false⟩

/-- `clear()` (line 215). -/
def atomic_flag.clear (_ : atomic_flag) : atomic_flag := ⟨false⟩

/-- `test_and_set()` (lines 216-217, 231-234): sets the flag and gives the
old value. -/
def atomic_flag.test_and_set (f : atomic_flag) : Bool × atomic_flag := (f.isSet, ⟨true⟩)

/-- The statements of lines 226-231: the value of `x` and the flag afterwards. -/
def flagSnippet : Bool × atomic_flag :=
  let f := ATOMIC_FLAG_INIT
  let f := f.clear
  f.test_and_set

end MemoryModelAtomicTypes

/-! # The thread pool sketch of `snippets.cpp` -/

namespace Snippets

/-- The error of spec 4.4 for a worker count below 1. The constructor of the
source has no failing path; the type is there so that this can be stated. -/
inductive ConstructionError where
  | invalidConfiguration
  deriving DecidableEq

/-- Class `thread_pool` (lines 7-28): its data members. `joiner` refers to
`threads` and has no state of its own. -/
structure thread_pool where
  /-- `std::atomic_bool done` -/
  done : Bool
  /-- `threadsafe_queue<std::function<void()>> task_queue`: the queued callables -/
  task_queue : List (Unit → Unit)
  /-- `std::vector<std::thread> threads` -/
  threads : List Tutorial2.Thread

/-- The constructor (lines 19-23): `done(false), joiner(threads)`, then
`unsigned const thread_count = std::thread::hardware_concurrency()`, which is
the whole body. `hardware_concurrency` is the value the library call returns. -/
def thread_pool.construct (hardware_concurrency : Nat) :
    Except ConstructionError thread_pool :=
  let _thread_count := hardware_concurrency % 4294967296
  .ok { done := false, task_queue := [], threads := [] }

/-- What a callable gives back: nothing (`void`) or an `int`. -/
inductive Returned where
  | nothing
  | value (v : Int)
  deriving DecidableEq

/-- Line 33, the callable `[]{ 5 * 2}`: the product is an expression statement,
the body has no `return`. -/
def future1_task (_ : Unit) : Returned :=
  let _product := SynchingTasks.wrapInt32 (5 * 2)
  .nothing

/-- Line 34, the callable `[](int x) { return x * x}`. -/
def future2_task (x : Int) : Int := SynchingTasks.wrapInt32 (x * x)

end Snippets

/-! # The cooldown counter of `Weapons_Atomic_Op.cpp`

The operator thread (`operatorInterface`, lines 31-38) and the cooldown thread
(`cooldownHandler`, lines 18-29), one step per statement, so that each atomic
operation on `cooldownCounter` is a step of its own. -/

namespace WeaponsAtomicOp

/-- Program points of `operatorInterface` with `fireWeapons` inlined. -/
inductive OperatorPc where
  /-- line 33: `i < 10` -/
  | loopTest
  /-- line 9: `cooldownCounter.load() == 0` -/
  | load
  /-- line 11: the message of the cannon -/
  | printFired
  /-- line 12: `cooldownCounter.store(5)` -/
  | store
  /-- line 14: the message of the cooling -/
  | printCooling
  /-- line 36: sleep, then `++i` -/
  | sleep
  /-- the loop has ended -/
  | returned
  deriving DecidableEq

/-- Program points of `cooldownHandler`. -/
inductive HandlerPc where
  /-- line 22: `int counter = cooldownCounter.load()` -/
  | load
  /-- line 23: `counter > 0` -/
  | test
  /-- line 25: `cooldownCounter.fetch_sub(1)` -/
  | fetchSub
  /-- line 27: sleep -/
  | sleep
  deriving DecidableEq

/-- The atomic counter, the two threads and the messages written so far. -/
structure State where
  /-- `std::atomic<int> cooldownCounter` -/
  cooldownCounter : Int
  opPc : OperatorPc
  /-- loop variable `i` of line 33 -/
  i : Int
  hPc : HandlerPc
  /-- local `counter` of line 22 -/
  counter : Int
  output : List String

/-- Line 6 and both threads at their first statement. -/
def init : State where
  cooldownCounter := 0
  opPc := .loopTest
  i := 0
  hPc := .load
  counter := 0
  output := []

/-- One statement of the operator thread. -/
def operatorStep (s : State) : Option State :=
  match s.opPc with
  | .loopTest => if s.i < 10 then some { s with opPc := .load } else some { s with opPc := .returned }
  | .load =>
    if s.cooldownCounter = 0 then some { s with opPc := .printFired }
    else some { s with opPc := .printCooling }
  | .printFired =>
    some { s with output := s.output ++ ["[Weapons] Plasma cannon fired. \n"], opPc := .store }
  | .store => some { s with cooldownCounter := 5, opPc := .sleep }
  | .printCooling =>
    some { s with output := s.output ++ ["[Weapons] Still cooling down..."], opPc := .sleep }
  | .sleep => some { s with i := SynchingTasks.wrapInt32 (s.i + 1), opPc := .loopTest }
  | .returned => none

/-- One statement of the cooldown thread. -/
def handlerStep (s : State) : Option State :=
  match s.hPc with
  | .load => some { s with counter := s.cooldownCounter, hPc := .test }
  | .test => if s.counter > 0 then some { s with hPc := .fetchSub } else some { s with hPc := .sleep }
  | .fetchSub =>
    some { s with cooldownCounter := SynchingTasks.wrapInt32 (s.cooldownCounter - 1),
                  hPc := .sleep }
  | .sleep => some { s with hPc := .load }

/-- Scheduler choices. -/
inductive Label where
  | operator
  | handler
  deriving DecidableEq

/-- One step of the two threads. -/
def step (l : Label) (s : State) : Option State :=
  match l with
  | .operator => operatorStep s
  | .handler => handlerStep s

/-- Execution of a schedule; a thread that cannot move leaves the state as it is. -/
def run : List Label → State → State
  | [], s => s
  | l :: ls, s => run ls ((step l s).getD s)

/-- What holds in every reachable state: the counter is in range, the operator
is between its load and its store only while the counter is 0, and the cooldown
thread is about to decrement only while the counter is positive. -/
structure Inv (s : State) : Prop where
  range : 0 ≤ s.cooldownCounter ∧ s.cooldownCounter ≤ 5
  firing : s.opPc = .printFired ∨ s.opPc = .store → s.cooldownCounter = 0
  tested : s.hPc = .test → 0 < s.counter → 0 < s.cooldownCounter
  decrementing : s.hPc = .fetchSub → 0 < s.cooldownCounter

/-- Function `fireWeapons` (lines 8-16) run from entry to return with no step of
another thread in between: the load of line 9, then either the message of
line 11 and the store of line 12, or the message of line 14. -/
def fireWeapons (s : State) : State :=
  if s.cooldownCounter = 0 then
    { s with output := s.output ++ ["[Weapons] Plasma cannon fired. \n"], cooldownCounter := 5 }
  else
    { s with output := s.output ++ ["[Weapons] Still cooling down..."] }

/-- A schedule in which the cannon fires and the counter is decremented once. -/
def sampleSchedule : List Label :=
  [.operator, .operator, .operator, .operator, .handler, .handler, .handler]

end WeaponsAtomicOp
/-! # Theorems -/

namespace SynchingTasks

set_option maxRecDepth 100000
set_option linter.unusedTactic false

/-! ## Frame lemmas -/

@[simp] theorem holdsLock_notStarted : holdsLock .notStarted = false := rfl
@[simp] theorem holdsLock_lockQueue : holdsLock .lockQueue = false := rfl
@[simp] theorem holdsLock_waitPred : holdsLock .waitPred = true := rfl
@[simp] theorem holdsLock_blocked : holdsLock .blocked = false := rfl
@[simp] theorem holdsLock_checkDone : holdsLock .checkDone = true := rfl
@[simp] theorem holdsLock_takeFront : holdsLock .takeFront = true := rfl
@[simp] theorem holdsLock_popFront : holdsLock .popFront = true := rfl
@[simp] theorem holdsLock_unlock : holdsLock .unlock = true := rfl
@[simp] theorem holdsLock_runTask : holdsLock .runTask = false := rfl
@[simp] theorem holdsLock_exited : holdsLock .exited = false := rfl
@[simp] theorem holdsLock_undefinedBehaviour : holdsLock .undefinedBehaviour = false := rfl

@[simp] theorem notifyOne_taskQueue (pick : Nat) (s : Sys) :
    (notifyOne pick s).taskQueue = s.taskQueue := by
  unfold notifyOne; split <;> rfl

@[simp] theorem notifyOne_queueMutex (pick : Nat) (s : Sys) :
    (notifyOne pick s).queueMutex = s.queueMutex := by
  unfold notifyOne; split <;> rfl

@[simp] theorem notifyOne_done (pick : Nat) (s : Sys) :
    (notifyOne pick s).done = s.done := by
  unfold notifyOne; split <;> rfl

@[simp] theorem notifyOne_shared (pick : Nat) (s : Sys) :
    (notifyOne pick s).shared = s.shared := by
  unfold notifyOne; split <;> rfl

@[simp] theorem notifyOne_sharedCount (pick : Nat) (s : Sys) :
    (notifyOne pick s).sharedCount = s.sharedCount := by
  unfold notifyOne; split <;> rfl

@[simp] theorem notifyOne_workers (pick : Nat) (s : Sys) :
    (notifyOne pick s).workers = s.workers := by
  unfold notifyOne; split <;> rfl

@[simp] theorem notifyOne_mainPc (pick : Nat) (s : Sys) :
    (notifyOne pick s).mainPc = s.mainPc := by
  unfold notifyOne; split <;> rfl

@[simp] theorem notifyOne_i (pick : Nat) (s : Sys) :
    (notifyOne pick s).i = s.i := by
  unfold notifyOne; split <;> rfl

@[simp] theorem notifyOne_mainTask (pick : Nat) (s : Sys) :
    (notifyOne pick s).mainTask = s.mainTask := by
  unfold notifyOne; split <;> rfl

@[simp] theorem notifyOne_futures (pick : Nat) (s : Sys) :
    (notifyOne pick s).futures = s.futures := by
  unfold notifyOne; split <;> rfl

@[simp] theorem notifyOne_futPos (pick : Nat) (s : Sys) :
    (notifyOne pick s).futPos = s.futPos := by
  unfold notifyOne; split <;> rfl

@[simp] theorem notifyOne_printed (pick : Nat) (s : Sys) :
    (notifyOne pick s).printed = s.printed := by
  unfold notifyOne; split <;> rfl

@[simp] theorem notifyOne_pushedLog (pick : Nat) (s : Sys) :
    (notifyOne pick s).pushedLog = s.pushedLog := by
  unfold notifyOne; split <;> rfl

@[simp] theorem notifyOne_dequeuedLog (pick : Nat) (s : Sys) :
    (notifyOne pick s).dequeuedLog = s.dequeuedLog := by
  unfold notifyOne; split <;> rfl

@[simp] theorem notifyOne_executedLog (pick : Nat) (s : Sys) :
    (notifyOne pick s).executedLog = s.executedLog := by
  unfold notifyOne; split <;> rfl

theorem lockInv_init : LockInv initSys := by
  refine ⟨fun i => ?_, ?_, ?_⟩
  · constructor <;> simp [initSys]
  · simp [initSys, mainHoldsLock]
  · simp [initSys]

/-- Two workers never both sit at a program point that owns the mutex. -/
theorem WorkerInv.exclusive (s : Sys) (i j : Nat) (hi : WorkerInv s i) (hj : WorkerInv s j)
    (hij : i ≠ j) (hl : holdsLock (s.workers j).pc = true) :
    holdsLock (s.workers i).pc = false := by
  have h1 := hj.owns.2 hl
  cases hb : holdsLock (s.workers i).pc with
  | false => rfl
  | true =>
    have h2 := hi.owns.2 hb
    rw [h1] at h2
    simp at h2
    exact absurd h2.symm hij

theorem lockMutex_eq_some (t : Tid) (s s1 : Sys) :
    lockMutex t s = some s1 ↔ s.queueMutex = none ∧ { s with queueMutex := some t } = s1 := by
  unfold lockMutex
  cases h : s.queueMutex <;> simp

set_option maxHeartbeats 4000000 in
theorem lockInv_workerStep (j : Nat) (s s1 : Sys) (h : LockInv s)
    (hs : workerStep j s = some s1) : LockInv s1 := by
  obtain ⟨hw, hm, hsp⟩ := h
  unfold workerStep at hs
  simp only at hs
  split at hs <;> (try split at hs) <;>
    simp only [lockMutex_eq_some, Option.map_eq_some', Option.some.injEq, reduceCtorEq] at hs
  all_goals obtain ⟨_, ⟨hmx, rfl⟩, rfl⟩ := hs
  all_goals
    refine ⟨fun i => ?_, ?_, ?_⟩
  all_goals
    first
    | (have key := WorkerInv.exclusive s i j (hw i) (hw j)
       obtain ⟨a1, a2, a3, a4, a5, a6⟩ := hw i
       obtain ⟨b1, b2, b3, b4, b5, b6⟩ := hw j
       by_cases hij : i = j
       · subst hij
         constructor <;> intros <;>
           simp_all [setWorker, waitPredicate, unlockMutex, invoke] <;> tauto
       · have hji : ¬ j = i := fun h => hij h.symm
         constructor <;> intros <;>
           simp_all [setWorker, Function.update_noteq hij, waitPredicate, unlockMutex, invoke])
    | (obtain ⟨b1, b2, b3, b4, b5, b6⟩ := hw j
       by_cases hj0 : j = 0
       · subst hj0
         simp_all [setWorker, unlockMutex, invoke]
       · simp_all [setWorker, unlockMutex, invoke, Function.update_noteq (Ne.symm hj0)])

set_option maxHeartbeats 4000000 in
theorem lockInv_mainStep (pick : Nat) (s s1 : Sys) (h : LockInv s)
    (hs : mainStep pick s = some s1) : LockInv s1 := by
  obtain ⟨hw, hm, hsp⟩ := h
  unfold mainStep at hs
  simp only at hs
  split at hs <;> (try split at hs) <;> (try split at hs) <;>
    simp only [lockMutex_eq_some, Option.map_eq_some', Option.some.injEq, reduceCtorEq] at hs
  all_goals obtain ⟨_, ⟨hmx, rfl⟩, rfl⟩ := hs
  all_goals
    refine ⟨fun i => ?_, ?_, ?_⟩
  all_goals
    first
    | (obtain ⟨a1, a2, a3, a4, a5, a6⟩ := hw i
       by_cases hi0 : i = 0
       · subst hi0
         constructor <;> intros <;>
           simp_all [setWorker, waitPredicate, unlockMutex, pushBack, setDone, mainHoldsLock,
             packageTask]
       · constructor <;> intros <;>
           simp_all [setWorker, waitPredicate, unlockMutex, pushBack, setDone, mainHoldsLock,
             packageTask, Function.update_noteq hi0])
    | simp_all [setWorker, unlockMutex, pushBack, setDone, mainHoldsLock, packageTask]

theorem lockInv_step (l : Label) (s s1 : Sys) (h : LockInv s) (hs : step l s = some s1) :
    LockInv s1 := by
  cases l with
  | main pick => exact lockInv_mainStep pick s s1 h hs
  | worker i => exact lockInv_workerStep i s s1 h hs
  | spurious i =>
    simp only [step] at hs
    split at hs
    · simp only [Option.some.injEq] at hs
      subst hs
      obtain ⟨hw, hm, hsp⟩ := h
      refine ⟨fun k => ?_, hm, hsp⟩
      obtain ⟨a1, a2, a3, a4, a5, a6⟩ := hw k
      exact ⟨a1, a2, a3, a4, a5, a6⟩
    · simp at hs

theorem lockInv_stepOrStay (l : Label) (s : Sys) (h : LockInv s) :
    LockInv (stepOrStay l s) := by
  unfold stepOrStay
  cases hs : step l s with
  | none => simpa using h
  | some s1 => simpa using lockInv_step l s s1 h hs

theorem lockInv_run (sched : List Label) (s : Sys) (h : LockInv s) :
    LockInv (run sched s) := by
  induction sched generalizing s with
  | nil => exact h
  | cons l ls ih => exact ih _ (lockInv_stepOrStay l s h)

/-! ## The worker alone -/

theorem workerRun_add (i m n : Nat) (s : Sys) :
    workerRun i (m + n) s = workerRun i n (workerRun i m s) := by
  induction m generalizing s with
  | zero => simp [workerRun]
  | succ m ih =>
    rw [Nat.succ_add]
    simp only [workerRun]
    exact ih _

/-- One iteration of the loop body takes seven statements. -/
theorem workerRun_iteration (i : Nat) (s : Sys) (t : Task) (rest : List Task)
    (hready : Ready i s) (hq : s.taskQueue = t :: rest) :
    workerRun i 7 s = afterIteration i t rest s := by
  obtain ⟨hm, hpc | ⟨hpc, hcv⟩⟩ := hready
  · simp [workerRun, stepOrStay, step, workerStep, hpc, hm, hq, lockMutex, setWorker,
      waitPredicate, unlockMutex, invoke, afterIteration]
  · simp [workerRun, stepOrStay, step, workerStep, hpc, hm, hq, hcv, lockMutex, setWorker,
      waitPredicate, unlockMutex, invoke, afterIteration]

theorem Idle.ready {i : Nat} {s : Sys} (h : Idle i s) : Ready i s := ⟨h.2, Or.inl h.1⟩

theorem afterIteration_idle (i : Nat) (s : Sys) (t : Task) (rest : List Task)
    (hm : s.queueMutex = none) : Idle i (afterIteration i t rest s) := by
  simp [Idle, afterIteration, setWorker, invoke, hm]

/-- The worker alone empties the queue, one iteration per task, in order. -/
theorem workerRun_drain (i : Nat) (q : List Task) (s : Sys)
    (hready : Ready i s) (hq : s.taskQueue = q) :
    Ready i (workerRun i (7 * q.length) s) ∧
    (workerRun i (7 * q.length) s).taskQueue = [] ∧
    (workerRun i (7 * q.length) s).done = s.done ∧
    (workerRun i (7 * q.length) s).cvWaiters = s.cvWaiters ∧
    (workerRun i (7 * q.length) s).pushedLog = s.pushedLog ∧
    (workerRun i (7 * q.length) s).dequeuedLog = s.dequeuedLog ++ q ∧
    (workerRun i (7 * q.length) s).executedLog = s.executedLog ++ q ∧
    (workerRun i (7 * q.length) s).shared = storeAll q s.shared := by
  induction q generalizing s with
  | nil => simp [workerRun, hready, hq, futs, storeAll]
  | cons t rest ih =>
    have hlen : 7 * (t :: rest).length = 7 + 7 * rest.length := by
      simp [List.length_cons]; ring
    rw [hlen, workerRun_add, workerRun_iteration i s t rest hready hq]
    have h := ih (afterIteration i t rest s) (afterIteration_idle i s t rest hready.1).ready
      (by simp [afterIteration, setWorker, invoke])
    obtain ⟨h1, h2, h3, h4, h5, h6, h7, h8⟩ := h
    refine ⟨h1, h2, ?_, ?_, ?_, ?_, ?_, ?_⟩
    · rw [h3]; simp [afterIteration, setWorker, invoke]
    · rw [h4]; simp [afterIteration, setWorker, invoke]
    · rw [h5]; simp [afterIteration, setWorker, invoke]
    · rw [h6]; simp [afterIteration, setWorker, invoke, futs]
    · rw [h7]; simp [afterIteration, setWorker, invoke, futs]
    · rw [h8]; simp [afterIteration, setWorker, invoke, storeAll]

/-- With an empty queue and `done` set, the worker leaves its loop in three
statements, never waits, and changes nothing else. -/
theorem workerRun_exit (i : Nat) (s : Sys) (hready : Ready i s) (hq : s.taskQueue = [])
    (hd : s.done = true) :
    ((workerRun i 1 s).workers i).pc = .waitPred ∧
    ((workerRun i 2 s).workers i).pc = .checkDone ∧
    (workerRun i 2 s).cvWaiters = s.cvWaiters ∧
    ((workerRun i 3 s).workers i).pc = .exited ∧
    (workerRun i 3 s).taskQueue = [] ∧
    (workerRun i 3 s).queueMutex = none ∧
    (workerRun i 3 s).cvWaiters = s.cvWaiters ∧
    (workerRun i 3 s).shared = s.shared ∧
    (workerRun i 3 s).pushedLog = s.pushedLog ∧
    (workerRun i 3 s).dequeuedLog = s.dequeuedLog ∧
    (workerRun i 3 s).executedLog = s.executedLog := by
  obtain ⟨hm, hpc | ⟨hpc, hcv⟩⟩ := hready
  · simp [workerRun, stepOrStay, step, workerStep, hpc, hm, hq, hd, lockMutex, setWorker,
      waitPredicate, unlockMutex]
  · simp [workerRun, stepOrStay, step, workerStep, hpc, hm, hq, hd, hcv, lockMutex, setWorker,
      waitPredicate, unlockMutex]

/-- An exited worker does not move. -/
theorem workerRun_exited (i n : Nat) (s : Sys) (h : (s.workers i).pc = .exited) :
    workerRun i n s = s := by
  induction n with
  | zero => rfl
  | succ n ih =>
    simp only [workerRun]
    have : stepOrStay (.worker i) s = s := by
      simp [stepOrStay, step, workerStep, h]
    rw [this, ih]

/-- Once the worker has exited, running it further or less far gives the same state. -/
theorem workerRun_exited_eq (i m n : Nat) (s : Sys)
    (hm : ((workerRun i m s).workers i).pc = .exited)
    (hn : ((workerRun i n s).workers i).pc = .exited) :
    workerRun i m s = workerRun i n s := by
  rcases Nat.le_total m n with h | h
  · obtain ⟨k, rfl⟩ := Nat.exists_eq_add_of_le h
    rw [workerRun_add, workerRun_exited i k _ hm]
  · obtain ⟨k, rfl⟩ := Nat.exists_eq_add_of_le h
    rw [workerRun_add, workerRun_exited i k _ hn]

/-! ## The blocks of `main` -/

theorem enqueueBlock_free (t : Task) (pick : Nat) (s : Sys) (hm : s.queueMutex = none) :
    enqueueBlock t pick s
      = some (notifyOne pick (unlockMutex (pushBack t { s with queueMutex := some .main }))) := by
  simp [enqueueBlock, lockMutex, hm, pushBack, unlockMutex]

theorem closeBlock_free (pick : Nat) (s : Sys) (hm : s.queueMutex = none) :
    closeBlock pick s
      = some (notifyOne pick (unlockMutex (setDone { s with queueMutex := some .main }))) := by
  simp [closeBlock, lockMutex, hm, setDone, unlockMutex]

theorem mem_notifyOne_cvWaiters (pick i : Nat) (s : Sys)
    (h : i ∈ (notifyOne pick s).cvWaiters) : i ∈ s.cvWaiters := by
  unfold notifyOne at h
  split at h
  · exact h
  · rename_i w ws hw
    rw [hw]
    exact List.mem_of_mem_eraseIdx h

theorem Ready.notifyOne {i : Nat} {s : Sys} (pick : Nat) (h : Ready i s) :
    Ready i (notifyOne pick s) := by
  obtain ⟨hm, hpc | ⟨hpc, hcv⟩⟩ := h
  · exact ⟨by simpa using hm, Or.inl (by simpa using hpc)⟩
  · exact ⟨by simpa using hm,
      Or.inr ⟨by simpa using hpc, fun hmem => hcv (mem_notifyOne_cvWaiters pick i s hmem)⟩⟩

/-- The push blocks of a list of tasks, started with a free mutex. -/
theorem enqueueAll_spec (i pick : Nat) (ts : List Task) (s : Sys) (hready : Ready i s) :
    ∃ s1, enqueueAll pick ts s = some s1 ∧ Ready i s1 ∧
      s1.taskQueue = s.taskQueue ++ ts ∧ s1.done = s.done ∧
      s1.pushedLog = s.pushedLog ++ ts ∧ s1.dequeuedLog = s.dequeuedLog ∧
      s1.executedLog = s.executedLog := by
  induction ts generalizing s with
  | nil => exact ⟨s, rfl, hready, by simp [futs]⟩
  | cons t ts ih =>
    have hr : Ready i (notifyOne pick
        (unlockMutex (pushBack t { s with queueMutex := some .main }))) := by
      apply Ready.notifyOne
      obtain ⟨hm, hpc⟩ := hready
      exact ⟨rfl, by simpa [unlockMutex, pushBack] using hpc⟩
    obtain ⟨s1, h1, h2, h3, h4, h5, h6, h7⟩ := ih _ hr
    refine ⟨s1, ?_, h2, ?_, ?_, ?_, ?_, ?_⟩
    · simp [enqueueAll, enqueueBlock_free t pick s hready.1, h1]
    · rw [h3]; simp [unlockMutex, pushBack]
    · rw [h4]; simp [unlockMutex, pushBack]
    · rw [h5]; simp [unlockMutex, pushBack, futs]
    · rw [h6]; simp [unlockMutex, pushBack]
    · rw [h7]; simp [unlockMutex, pushBack]

/-- Worker steps move tasks from the queue to the dequeue history and touch
nothing else of the two. -/
theorem workerStep_fifo (j : Nat) (s s1 : Sys) (hs : workerStep j s = some s1) :
    s1.dequeuedLog ++ s1.taskQueue = s.dequeuedLog ++ s.taskQueue ∧
    s1.pushedLog = s.pushedLog := by
  unfold workerStep at hs
  simp only at hs
  split at hs <;> (try split at hs) <;>
    simp only [lockMutex_eq_some, Option.map_eq_some', Option.some.injEq, reduceCtorEq] at hs
  all_goals obtain ⟨_, ⟨hmx, rfl⟩, rfl⟩ := hs
  all_goals simp_all [setWorker, unlockMutex, invoke, futs]

theorem workerRun_fifo (j n : Nat) (s : Sys) :
    (workerRun j n s).dequeuedLog ++ (workerRun j n s).taskQueue
      = s.dequeuedLog ++ s.taskQueue := by
  induction n generalizing s with
  | zero => rfl
  | succ n ih =>
    simp only [workerRun]
    rw [ih]
    unfold stepOrStay
    cases hs : step (.worker j) s with
    | none => rfl
    | some s1 => exact (workerStep_fifo j s s1 hs).1

theorem closeBlock_spec (i pick : Nat) (s : Sys) (hpos : Ready i s ∨ Waiting i s) :
    ∃ s1, closeBlock pick s = some s1 ∧ Ready i s1 ∧ s1.done = true ∧
      s1.taskQueue = s.taskQueue ∧ s1.pushedLog = s.pushedLog ∧
      s1.dequeuedLog = s.dequeuedLog ∧ s1.executedLog = s.executedLog := by
  have hm : s.queueMutex = none := by
    rcases hpos with h | h
    · exact h.1
    · exact h.1
  refine ⟨_, closeBlock_free pick s hm, ?_, ?_⟩
  · rcases hpos with hready | ⟨_, hpc, hcv⟩
    · apply Ready.notifyOne
      obtain ⟨_, hpc⟩ := hready
      exact ⟨rfl, by simpa [unlockMutex, setDone] using hpc⟩
    · refine ⟨by simp [unlockMutex, setDone], Or.inr ⟨by simpa [unlockMutex, setDone] using hpc, ?_⟩⟩
      simp [notifyOne, unlockMutex, setDone, hcv, Nat.mod_one]
  · simp [unlockMutex, setDone]

/-- A worker that is ready when `done` is set drains the queue and exits. -/
theorem workerRun_drain_exit (i : Nat) (s : Sys) (hready : Ready i s) (hd : s.done = true) :
    ((workerRun i (7 * s.taskQueue.length + 3) s).workers i).pc = .exited ∧
    (workerRun i (7 * s.taskQueue.length + 3) s).taskQueue = [] ∧
    (workerRun i (7 * s.taskQueue.length + 3) s).dequeuedLog
      = s.dequeuedLog ++ s.taskQueue ∧
    (workerRun i (7 * s.taskQueue.length + 3) s).executedLog
      = s.executedLog ++ s.taskQueue := by
  obtain ⟨d1, d2, d3, d4, d5, d6, d7, d8⟩ := workerRun_drain i s.taskQueue s hready rfl
  obtain ⟨e1, e2, e3, e4, e5, e6, e7, e8, e9, e10, e11⟩ :=
    workerRun_exit i _ d1 d2 (by rw [d3, hd])
  rw [workerRun_add]
  exact ⟨e4, e5, by rw [e10, d6], by rw [e11, d7]⟩

/-! ## No push after `done` -/

/-- Workers change neither `done`, nor the program point of `main`, nor the
push history, and only shorten the queue from the front. -/
theorem workerStep_frame (j : Nat) (s s1 : Sys) (hs : workerStep j s = some s1) :
    s1.done = s.done ∧ s1.mainPc = s.mainPc ∧ s1.pushedLog = s.pushedLog ∧
    s1.taskQueue <:+ s.taskQueue := by
  unfold workerStep at hs
  simp only at hs
  split at hs <;> (try split at hs) <;>
    simp only [lockMutex_eq_some, Option.map_eq_some', Option.some.injEq, reduceCtorEq] at hs
  all_goals obtain ⟨_, ⟨hmx, rfl⟩, rfl⟩ := hs
  all_goals simp_all [setWorker, unlockMutex, invoke]

/-- In every state of `main`, `done` is set only after line 57. -/
theorem doneAfter_mainStep (pick : Nat) (s s1 : Sys)
    (h : s.done = true → mainAfterClose s.mainPc = true) (hs : mainStep pick s = some s1) :
    s1.done = true → mainAfterClose s1.mainPc = true := by
  unfold mainStep at hs
  simp only at hs
  split at hs <;> (try split at hs) <;> (try split at hs) <;>
    simp only [lockMutex_eq_some, Option.map_eq_some', Option.some.injEq, reduceCtorEq] at hs
  all_goals obtain ⟨_, ⟨hmx, rfl⟩, rfl⟩ := hs
  all_goals
    simp_all [setWorker, unlockMutex, pushBack, setDone, packageTask, mainAfterClose]

theorem doneAfter_stepOrStay (l : Label) (s : Sys)
    (h : s.done = true → mainAfterClose s.mainPc = true) :
    (stepOrStay l s).done = true → mainAfterClose (stepOrStay l s).mainPc = true := by
  unfold stepOrStay
  cases hs : step l s with
  | none => simpa using h
  | some s1 =>
    simp only [Option.getD_some]
    cases l with
    | main pick => exact doneAfter_mainStep pick s s1 h hs
    | worker j =>
      obtain ⟨f1, f2, _, _⟩ := workerStep_frame j s s1 hs
      rw [f1, f2]; exact h
    | spurious j =>
      simp only [step] at hs
      split at hs
      · simp only [Option.some.injEq] at hs
        subst hs
        exact h
      · simp at hs

theorem doneAfter_run (sched : List Label) (s : Sys)
    (h : s.done = true → mainAfterClose s.mainPc = true) :
    (run sched s).done = true → mainAfterClose (run sched s).mainPc = true := by
  induction sched generalizing s with
  | nil => exact h
  | cons l ls ih => exact ih _ (doneAfter_stepOrStay l s h)

/-- Once `done` is set and `main` is past line 57, a step keeps it so, pushes
nothing, and at most removes tasks from the front of the queue. -/
theorem closed_stepOrStay (l : Label) (s : Sys) (hd : s.done = true)
    (hpc : mainAfterClose s.mainPc = true) :
    (stepOrStay l s).done = true ∧ mainAfterClose (stepOrStay l s).mainPc = true ∧
    (stepOrStay l s).pushedLog = s.pushedLog ∧
    (stepOrStay l s).taskQueue <:+ s.taskQueue := by
  unfold stepOrStay
  cases hs : step l s with
  | none => simp [hd, hpc]
  | some s1 =>
    simp only [Option.getD_some]
    cases l with
    | main pick =>
      simp only [step] at hs
      unfold mainStep at hs
      simp only at hs
      split at hs <;> (try split at hs) <;> (try split at hs) <;>
        simp only [lockMutex_eq_some, Option.map_eq_some', Option.some.injEq,
          reduceCtorEq] at hs
      all_goals obtain ⟨_, ⟨hmx, rfl⟩, rfl⟩ := hs
      all_goals
        simp_all [setWorker, unlockMutex, pushBack, setDone, packageTask, mainAfterClose]
    | worker j =>
      obtain ⟨f1, f2, f3, f4⟩ := workerStep_frame j s s1 hs
      exact ⟨by rw [f1, hd], by rw [f2, hpc], f3, f4⟩
    | spurious j =>
      simp only [step] at hs
      split at hs
      · simp only [Option.some.injEq] at hs
        subst hs
        simp [hd, hpc]
      · simp at hs

theorem closed_run (sched : List Label) (s : Sys) (hd : s.done = true)
    (hpc : mainAfterClose s.mainPc = true) :
    (run sched s).pushedLog = s.pushedLog ∧ (run sched s).taskQueue <:+ s.taskQueue := by
  induction sched generalizing s with
  | nil => exact ⟨rfl, List.suffix_refl _⟩
  | cons l ls ih =>
    obtain ⟨c1, c2, c3, c4⟩ := closed_stepOrStay l s hd hpc
    obtain ⟨i1, i2⟩ := ih _ c1 c2
    exact ⟨by rw [show run (l :: ls) s = run ls (stepOrStay l s) from rfl, i1, c3],
      i2.trans c4⟩

/-! ## One worker, one waiter -/

theorem progInv_init : ProgInv initSys := by
  constructor <;> simp [initSys, mainAfterClose]

set_option maxHeartbeats 4000000 in
theorem progInv_workerStep (j : Nat) (s s1 : Sys) (h : ProgInv s)
    (hs : workerStep j s = some s1) : ProgInv s1 := by
  obtain ⟨p1, p2, p3⟩ := h
  by_cases hj : j = 0
  swap
  · have := p1 j hj
    simp [workerStep, this] at hs
  subst hj
  unfold workerStep at hs
  simp only at hs
  split at hs <;> (try split at hs) <;>
    simp only [lockMutex_eq_some, Option.map_eq_some', Option.some.injEq, reduceCtorEq] at hs
  all_goals obtain ⟨_, ⟨hmx, rfl⟩, rfl⟩ := hs
  all_goals
    refine ⟨fun k hk => ?_, ?_, ?_⟩
  all_goals
    first
    | (have hk1 := p1 k hk
       simp_all [setWorker, unlockMutex, invoke, Function.update_noteq hk]
       done)
    | (rcases p2 with p2 | ⟨p2, p2b⟩ <;> simp_all [setWorker, unlockMutex, invoke])

set_option maxHeartbeats 4000000 in
theorem progInv_mainStep (pick : Nat) (s s1 : Sys) (hl : LockInv s) (h : ProgInv s)
    (hs : mainStep pick s = some s1) : ProgInv s1 := by
  obtain ⟨p1, p2, p3⟩ := h
  have hsp := hl.unspawned
  unfold mainStep at hs
  simp only at hs
  split at hs <;> (try split at hs) <;> (try split at hs) <;>
    simp only [lockMutex_eq_some, Option.map_eq_some', Option.some.injEq, reduceCtorEq] at hs
  all_goals obtain ⟨_, ⟨hmx, rfl⟩, rfl⟩ := hs
  all_goals
    refine ⟨fun k hk => ?_, ?_, ?_⟩
  all_goals
    first
    | (have hk1 := p1 k hk
       simp_all [setWorker, unlockMutex, pushBack, setDone, packageTask, mainAfterClose,
         Function.update_noteq hk]
       done)
    | (rcases p2 with p2 | ⟨p2, p2b⟩ <;>
        simp_all [setWorker, unlockMutex, pushBack, setDone, packageTask, mainAfterClose,
          notifyOne, Nat.mod_one])

theorem progInv_stepOrStay (l : Label) (s : Sys) (hl : LockInv s) (h : ProgInv s) :
    ProgInv (stepOrStay l s) := by
  unfold stepOrStay
  cases hs : step l s with
  | none => simpa using h
  | some s1 =>
    simp only [Option.getD_some]
    cases l with
    | main pick => exact progInv_mainStep pick s s1 hl h hs
    | worker j => exact progInv_workerStep j s s1 h hs
    | spurious j =>
      simp only [step] at hs
      split at hs
      · rename_i hmem
        simp only [Option.some.injEq] at hs
        subst hs
        obtain ⟨p1, p2, p3⟩ := h
        refine ⟨p1, ?_, p3⟩
        rcases p2 with p2 | ⟨p2, _⟩
        · simp [p2] at hmem
        · simp only [p2, List.mem_singleton] at hmem
          subst hmem
          left
          simp [p2]
      · simp at hs

/-- Both invariants hold in every state that `main` can reach. -/
theorem invariants_run (sched : List Label) (s : Sys) (hl : LockInv s) (h : ProgInv s) :
    LockInv (run sched s) ∧ ProgInv (run sched s) := by
  induction sched generalizing s with
  | nil => exact ⟨hl, h⟩
  | cons l ls ih => exact ih _ (lockInv_stepOrStay l s hl) (progInv_stepOrStay l s hl h)

/-- In a reachable state a blocked worker does not face a locked mutex once
`main` is outside its lock scopes. -/
theorem mutex_free_of_blocked (s : Sys) (hl : LockInv s) (h : ProgInv s) (i : Nat)
    (hb : (s.workers i).pc = .blocked) (hm : mainHoldsLock s.mainPc = false) :
    s.queueMutex = none := by
  have hi0 : i = 0 := by
    by_contra hne
    have := h.single i hne
    rw [hb] at this
    cases this
  subst hi0
  cases hq : s.queueMutex with
  | none => rfl
  | some o =>
    cases o with
    | main =>
      have := hl.mainOwns.1 hq
      rw [hm] at this
      cases this
    | worker k =>
      have hk := (hl.worker k).owns.1 hq
      by_cases hk0 : k = 0
      · subst hk0
        rw [hb] at hk
        cases hk
      · rw [h.single k hk0] at hk
        cases hk

/-! ## The values of the futures of `main` -/

theorem wrapInt32_eq (z : Int) (h1 : -2147483648 ≤ z) (h2 : z < 2147483648) :
    wrapInt32 z = z := by
  unfold wrapInt32
  omega

theorem valInv_init : ValInv initSys := by
  constructor <;> simp [initSys, loopRel]

/-- What a worker step does to the tasks and the shared states: a task held
afterwards was held before or stood in the queue; a shared state that is ready
afterwards was ready before or was written by the task the worker held. -/
theorem workerStep_effect (j : Nat) (s s1 : Sys) (hs : workerStep j s = some s1) :
    s1.sharedCount = s.sharedCount ∧ s1.mainTask = s.mainTask ∧ s1.futures = s.futures ∧
    s1.mainPc = s.mainPc ∧ s1.i = s.i ∧ s1.futPos = s.futPos ∧ s1.printed = s.printed ∧
    (∀ k t, (s1.workers k).task = some t →
      (s.workers k).task = some t ∨ t ∈ s.taskQueue) ∧
    (∀ k v, s1.shared k = some v →
      s.shared k = some v ∨ ∃ t, (s.workers j).task = some t ∧ k = t.fut ∧ v = t.call ()) := by
  unfold workerStep at hs
  simp only at hs
  split at hs <;> (try split at hs) <;>
    simp only [lockMutex_eq_some, Option.map_eq_some', Option.some.injEq, reduceCtorEq] at hs
  all_goals obtain ⟨_, ⟨hmx, rfl⟩, rfl⟩ := hs
  all_goals
    refine ⟨rfl, rfl, rfl, rfl, rfl, rfl, rfl, fun k t hk => ?_, fun k v hk => ?_⟩
  all_goals
    first
    | (left; exact hk)
    | (by_cases hkj : k = j
       · subst hkj
         simp_all [setWorker, unlockMutex, invoke]
       · left
         simpa [setWorker, unlockMutex, invoke, Function.update_noteq hkj] using hk)
    | (simp only [setWorker, invoke, Function.update_apply] at hk
       split_ifs at hk with hkt
       · right
         simp_all
       · left
         exact hk)

theorem valInv_workerStep (j : Nat) (s s1 : Sys) (h : ValInv s)
    (hs : workerStep j s = some s1) : ValInv s1 := by
  obtain ⟨v1, v2, v3, v4, v5, v6, v7, v8⟩ := h
  obtain ⟨e1, e2, e3, e4, e5, e6, e7, e8, e9⟩ := workerStep_effect j s s1 hs
  obtain ⟨_, _, _, f4⟩ := workerStep_frame j s s1 hs
  refine ⟨fun t ht => ?_, fun k t hk => ?_, ?_, fun k v hk => ?_, ?_, ?_, ?_, ?_⟩
  · rw [e1]; exact v1 t (f4.subset ht)
  · rw [e1]
    rcases e8 k t hk with h | h
    · exact v2 k t h
    · exact v1 t h
  · rw [e1, e2]; exact v3
  · rw [e1]
    rcases e9 k v hk with h | ⟨t, ht, rfl, rfl⟩
    · exact v4 k v h
    · exact v2 j t ht
  · rw [e1, e3]; exact v5
  · rw [e1]; exact v6
  · rw [e1, e4, e5, e6]; exact v7
  · rw [e1, e6, e7]; exact v8

set_option maxHeartbeats 4000000 in
theorem valInv_mainStep (pick : Nat) (s s1 : Sys) (h : ValInv s)
    (hs : mainStep pick s = some s1) : ValInv s1 := by
  obtain ⟨v1, v2, v3, v4, v5, v6, v7, v8⟩ := h
  unfold mainStep at hs
  simp only at hs
  split at hs <;> (try split at hs) <;> (try split at hs) <;>
    simp only [lockMutex_eq_some, Option.map_eq_some', Option.some.injEq, reduceCtorEq] at hs
  all_goals obtain ⟨_, ⟨hmx, rfl⟩, rfl⟩ := hs
  all_goals
    refine ⟨fun t ht => ?_, fun k t hk => ?_, fun t ht => ?_, fun k v hk => ?_, ?_, ?_, ?_, ?_⟩
  all_goals
    try simp only [notifyOne_taskQueue, notifyOne_workers, notifyOne_shared,
      notifyOne_sharedCount, notifyOne_mainTask, notifyOne_futures, notifyOne_futPos,
      notifyOne_printed, notifyOne_i] at *
  all_goals
    first
    | exact v1 t ht
    | exact v2 k t hk
    | exact v3 t ht
    | exact v4 k v hk
    | exact v5
    | exact v6
    | exact v8
    | (simp_all [loopRel, unlockMutex, pushBack, setWorker, packageTask]
       done)
    | skip
  · by_cases hk0 : k = 0
    · subst hk0
      simp [setWorker] at hk
    · exact v2 k t (by simpa [setWorker, Function.update_noteq hk0] using hk)
  · obtain ⟨a, b⟩ := v1 t ht
    exact ⟨Nat.lt_succ_of_lt a, b⟩
  · obtain ⟨a, b⟩ := v2 k t hk
    exact ⟨Nat.lt_succ_of_lt a, b⟩
  · rename_i hpc
    rw [hpc] at v7
    simp only [loopRel] at v7
    simp only [packageTask, Option.some.injEq] at ht
    subst ht
    exact ⟨Nat.lt_succ_self _, by simp [v7.1]⟩
  · obtain ⟨a, b⟩ := v4 k v hk
    exact ⟨Nat.lt_succ_of_lt a, b⟩
  · simp only [packageTask]
    rw [v5, List.range_succ]
  · rename_i hpc
    rw [hpc] at v7
    simp only [loopRel] at v7
    simp only [packageTask]
    omega
  · simp only [pushBack, List.mem_append, List.mem_singleton] at ht
    rcases ht with ht | rfl
    · exact v1 t ht
    · rename_i heq
      exact v3 t heq
  · rename_i hpc
    rw [hpc] at v7
    simp only [loopRel] at v7 ⊢
    rw [wrapInt32_eq _ (by omega) (by omega)]
    omega
  · rename_i hk _ _ hv
    rw [v5, List.get?_eq_getElem?] at hk
    have hlt : s.futPos < s.sharedCount := by
      by_contra hge
      rw [List.getElem?_eq_none (by simpa using hge)] at hk
      cases hk
    rw [List.getElem?_range hlt, Option.some.injEq] at hk
    subst hk
    refine ⟨hlt, ?_⟩
    have hval := Except.ok.inj (v4 _ _ hv).2
    have hpr := v8.2
    show s.printed ++ [_]
      = (List.range (s.futPos + 1)).map fun (k : Nat) => heavyTask ((k : Int) + 1)
    rw [List.range_succ, List.map_append, ← hpr, hval]
    rfl

theorem valInv_run (sched : List Label) (s : Sys) (h : ValInv s) : ValInv (run sched s) := by
  induction sched generalizing s with
  | nil => exact h
  | cons l ls ih =>
    apply ih
    unfold stepOrStay
    cases hs : step l s with
    | none => simpa using h
    | some s1 =>
      simp only [Option.getD_some]
      cases l with
      | main pick => exact valInv_mainStep pick s s1 h hs
      | worker j => exact valInv_workerStep j s s1 h hs
      | spurious j =>
        simp only [step] at hs
        split at hs
        · simp only [Option.some.injEq] at hs
          subst hs
          obtain ⟨v1, v2, v3, v4, v5, v6, v7, v8⟩ := h
          exact ⟨v1, v2, v3, v4, v5, v6, v7, v8⟩
        · simp at hs

theorem heavyTask_square (k : Nat) (hk : k < 9) :
    heavyTask ((k : Int) + 1) = ((k : Int) + 1) * ((k : Int) + 1) := by
  unfold heavyTask
  apply wrapInt32_eq <;> nlinarith

theorem storeAll_append (q : List Task) (t : Task) (sh : Nat → Option Outcome) :
    storeAll (q ++ [t]) sh t.fut = some (t.call ()) := by
  induction q generalizing sh with
  | nil => simp [storeAll]
  | cons u q ih => simpa [storeAll] using ih _

/-- A task pushed behind the queue of a ready worker has its result stored
once the worker has run one iteration per queued task. -/
theorem submit_round_trip {α : Type} (f : α → Outcome) (x : α) (i pick : Nat) (s : Sys)
    (hready : Ready i s) (hd : s.done = false) :
    ∃ h s1, submit f x pick s = some (.ok (h, s1)) ∧
      futureGet h (workerRun i (7 * (s.taskQueue.length + 1)) s1) = some (f x) := by
  have hr : Ready i (notifyOne pick (unlockMutex (pushBack ⟨s.sharedCount, fun _ => f x⟩
      { (packageTask (fun _ => f x) s).2 with queueMutex := some .main }))) := by
    apply Ready.notifyOne
    obtain ⟨hm, hpc⟩ := hready
    exact ⟨rfl, by simpa [unlockMutex, pushBack, packageTask] using hpc⟩
  refine ⟨s.sharedCount, notifyOne pick (unlockMutex (pushBack ⟨s.sharedCount, fun _ => f x⟩
      { (packageTask (fun _ => f x) s).2 with queueMutex := some .main })), ?_, ?_⟩
  · simp only [submit, hd, Bool.false_eq_true, if_false]
    rw [enqueueBlock_free _ _ _ (by simpa [packageTask] using hready.1)]
    rfl
  · obtain ⟨d1, d2, d3, d4, d5, d6, d7, d8⟩ :=
      workerRun_drain i (s.taskQueue ++ [⟨s.sharedCount, fun _ => f x⟩]) _ hr
        (by simp [unlockMutex, pushBack, packageTask])
    simp only [List.length_append, List.length_singleton] at d8
    unfold futureGet
    rw [d8]
    exact storeAll_append s.taskQueue ⟨s.sharedCount, fun _ => f x⟩ _

/-! ## The histories of `main` -/

theorem logInv_init : LogInv initSys := by
  constructor <;> simp [initSys, inHand, futs, mainHasTask, pastLoop]

set_option maxHeartbeats 4000000 in
theorem logInv_worker_exec (s s1 : Sys) (hw : WorkerInv s 0)
    (g2 : s.executedLog ++ inHand (s.workers 0) = s.dequeuedLog)
    (hs : workerStep 0 s = some s1) :
    s1.executedLog ++ inHand (s1.workers 0) = s1.dequeuedLog ∧
    ((s1.workers 0).pc = .exited → s1.taskQueue = [] ∧ s1.done = true) ∧
    ((s.workers 0).pc = .exited → (s1.workers 0).pc = .exited) := by
  obtain ⟨a1, a2, a3, a4, a5, a6⟩ := hw
  unfold workerStep at hs
  simp only at hs
  split at hs <;> (try split at hs) <;>
    simp only [lockMutex_eq_some, Option.map_eq_some', Option.some.injEq, reduceCtorEq] at hs
  all_goals obtain ⟨_, ⟨hmx, rfl⟩, rfl⟩ := hs
  all_goals simp_all [setWorker, unlockMutex, invoke, inHand]

set_option maxHeartbeats 4000000 in
theorem logInv_workerStep (j : Nat) (s s1 : Sys) (hl : LockInv s) (hp : ProgInv s)
    (h : LogInv s) (hs : workerStep j s = some s1) : LogInv s1 := by
  obtain ⟨g1, g2, g3, g4, g5, g6, g7⟩ := h
  obtain ⟨e1, e2, e3, e4, e5, e6, e7, e8, e9⟩ := workerStep_effect j s s1 hs
  obtain ⟨f1, f2, f3, f4⟩ := workerStep_frame j s s1 hs
  have hw := hl.worker j
  by_cases hj : j = 0
  swap
  · have := hp.single j hj
    simp [workerStep, this] at hs
  subst hj
  have tail : futs s1.pushedLog ++ futs s1.mainTask.toList = List.range s1.sharedCount ∧
      (mainHasTask s1.mainPc = false → s1.mainTask = none) ∧
      (pastLoop s1.mainPc = true → s1.sharedCount = 9) := by
    rw [f3, e2, e1, e4]; exact ⟨g4, g5, g6⟩
  obtain ⟨t1, t2, t3⟩ := tail
  refine ⟨?_, ?_, ?_, t1, t2, t3, ?_⟩
  · rw [(workerStep_fifo 0 s s1 hs).1, f3]; exact g1
  · exact (logInv_worker_exec s s1 hw g2 hs).1
  · exact (logInv_worker_exec s s1 hw g2 hs).2.1
  · intro hfin
    rw [e4] at hfin
    exact (logInv_worker_exec s s1 hw g2 hs).2.2 (g7 hfin)

set_option maxHeartbeats 4000000 in
theorem logInv_mainStep (pick : Nat) (s s1 : Sys) (hl : LockInv s) (hv : ValInv s)
    (hd : s.done = true → mainAfterClose s.mainPc = true)
    (h : LogInv s) (hs : mainStep pick s = some s1) : LogInv s1 := by
  obtain ⟨g1, g2, g3, g4, g5, g6, g7⟩ := h
  have hsp := hl.unspawned
  have hcount := hv.count
  have hloop := hv.loopVar
  unfold mainStep at hs
  simp only at hs
  split at hs <;> (try split at hs) <;> (try split at hs) <;>
    simp only [lockMutex_eq_some, Option.map_eq_some', Option.some.injEq, reduceCtorEq] at hs
  all_goals obtain ⟨_, ⟨hmx, rfl⟩, rfl⟩ := hs
  all_goals
    refine ⟨?_, ?_, ?_, ?_, ?_, ?_, ?_⟩
  all_goals
    try simp only [notifyOne_taskQueue, notifyOne_workers, notifyOne_shared,
      notifyOne_sharedCount, notifyOne_mainTask, notifyOne_futures, notifyOne_futPos,
      notifyOne_printed, notifyOne_i, notifyOne_done, notifyOne_pushedLog,
      notifyOne_dequeuedLog, notifyOne_executedLog] at *
  all_goals
    first
    | exact g1
    | exact g2
    | exact g3
    | exact g4
    | exact g6
    | (simp_all [setWorker, unlockMutex, pushBack, setDone, packageTask, inHand, futs,
         mainHasTask, pastLoop, mainAfterClose, loopRel]
       done)
    | skip
  · rename_i hpc hge
    rw [hpc] at hloop
    simp only [loopRel] at hloop
    intro _
    omega
  · rename_i hpc
    have hnone := g5 (by rw [hpc]; rfl)
    rw [hnone] at g4
    simp only [packageTask, futs, Option.toList, List.map_nil, List.append_nil,
      List.map_cons] at g4 ⊢
    rw [g4, List.range_succ]
  · simp only [pushBack]
    rw [← List.append_assoc, g1]

theorem logInv_stepOrStay (l : Label) (s : Sys) (hl : LockInv s) (hp : ProgInv s)
    (hv : ValInv s) (hd : s.done = true → mainAfterClose s.mainPc = true) (h : LogInv s) :
    LogInv (stepOrStay l s) := by
  unfold stepOrStay
  cases hs : step l s with
  | none => simpa using h
  | some s1 =>
    simp only [Option.getD_some]
    cases l with
    | main pick => exact logInv_mainStep pick s s1 hl hv hd h hs
    | worker j => exact logInv_workerStep j s s1 hl hp h hs
    | spurious j =>
      simp only [step] at hs
      split at hs
      · simp only [Option.some.injEq] at hs
        subst hs
        obtain ⟨g1, g2, g3, g4, g5, g6, g7⟩ := h
        exact ⟨g1, g2, g3, g4, g5, g6, g7⟩
      · simp at hs

/-- All invariants hold in every state that `main` and its worker can reach. -/
theorem reachable_invariants (sched : List Label) :
    LockInv (run sched initSys) ∧ ProgInv (run sched initSys) ∧
    ValInv (run sched initSys) ∧ LogInv (run sched initSys) := by
  suffices h : ∀ s, LockInv s → ProgInv s → ValInv s →
      (s.done = true → mainAfterClose s.mainPc = true) → LogInv s →
      LockInv (run sched s) ∧ ProgInv (run sched s) ∧ ValInv (run sched s) ∧
        LogInv (run sched s) from
    h initSys lockInv_init progInv_init valInv_init (by simp [initSys]) logInv_init
  induction sched with
  | nil => exact fun s hl hp hv _ hg => ⟨hl, hp, hv, hg⟩
  | cons l ls ih =>
    intro s hl hp hv hd hg
    exact ih _ (lockInv_stepOrStay l s hl) (progInv_stepOrStay l s hl hp)
      (valInv_run [l] s hv) (doneAfter_stepOrStay l s hd)
      (logInv_stepOrStay l s hl hp hv hd hg)

/-- In every execution of `main` the invoked tasks are an initial part of the
pushed ones, whose futures are `0, 1, 2, ...` without repetition. -/
theorem executed_initial (sched : List Label) :
    (run sched initSys).executedLog <+: (run sched initSys).pushedLog ∧
    (futs (run sched initSys).executedLog).Nodup := by
  obtain ⟨_, _, _, hg⟩ := reachable_invariants sched
  generalize run sched initSys = s at hg
  have hpre : s.executedLog <+: s.pushedLog :=
    ⟨inHand (s.workers 0) ++ s.taskQueue, by rw [← List.append_assoc, hg.exec, hg.fifo]⟩
  refine ⟨hpre, ?_⟩
  have h1 : (futs s.executedLog).Sublist (futs s.pushedLog) := by
    unfold futs
    exact (List.IsPrefix.sublist hpre).map _
  have h2 : (futs s.pushedLog).Sublist (List.range s.sharedCount) := by
    rw [← hg.built]
    exact List.sublist_append_left _ _
  exact (List.nodup_range _).sublist (h1.trans h2)

/-- When `main` has finished, each of the nine tasks has been invoked once. -/
theorem finished_all_executed (sched : List Label)
    (hfin : (run sched initSys).mainPc = .finished) :
    (run sched initSys).executedLog = (run sched initSys).pushedLog ∧
    futs (run sched initSys).executedLog = List.range 9 := by
  obtain ⟨_, _, _, hg⟩ := reachable_invariants sched
  generalize run sched initSys = s at hg hfin
  have hex := hg.joined hfin
  have hq := (hg.exitedEmpty hex).1
  have hnone := hg.mainEmpty (by rw [hfin]; rfl)
  have h9 := hg.allBuilt (by rw [hfin]; rfl)
  have hexec : s.executedLog = s.pushedLog := by
    have h1 := hg.exec
    have h2 := hg.fifo
    simp only [inHand, hex, List.append_nil] at h1
    rw [hq, List.append_nil] at h2
    rw [h1, h2]
  refine ⟨hexec, ?_⟩
  have hb := hg.built
  rw [hnone, h9] at hb
  rw [hexec]
  simpa [futs] using hb

end SynchingTasks


namespace SynchingConcurrentOps

variable {Chunk : Type}

theorem inv_init : Inv (init Chunk) := by
  constructor <;> simp [init, procHoldsLock, prepHoldsLock]

theorem inv_prepStep (more : Bool) (chunk : Chunk) (s s1 : State Chunk) (h : Inv s)
    (hs : prepStep more chunk s = some s1) : Inv s1 := by
  obtain ⟨h1, h2, h3, h4⟩ := h
  unfold prepStep at hs
  split at hs <;> (try split at hs) <;>
    simp only [Option.some.injEq, reduceCtorEq] at hs
  all_goals subst hs
  all_goals
    constructor <;> simp_all [procHoldsLock, prepHoldsLock]

theorem inv_procStep (is_last_chunk : Chunk → Bool) (s s1 : State Chunk) (h : Inv s)
    (hs : procStep is_last_chunk s = some s1) : Inv s1 := by
  obtain ⟨h1, h2, h3, h4⟩ := h
  unfold procStep at hs
  split at hs <;> (try split at hs) <;> (try split at hs) <;>
    simp only [Option.some.injEq, reduceCtorEq] at hs
  all_goals subst hs
  all_goals
    constructor <;> simp_all [procHoldsLock, prepHoldsLock]

theorem inv_run (is_last_chunk : Chunk → Bool) (sched : List (Label Chunk))
    (s : State Chunk) (h : Inv s) : Inv (run is_last_chunk sched s) := by
  induction sched generalizing s with
  | nil => exact h
  | cons l ls ih =>
    apply ih
    cases hs : step is_last_chunk l s with
    | none => simpa using h
    | some s1 =>
      simp only [Option.getD_some]
      cases l with
      | preparation more chunk => exact inv_prepStep more chunk s s1 h hs
      | processing => exact inv_procStep is_last_chunk s s1 h hs
      | spurious =>
        simp only [step] at hs
        split at hs
        · simp only [Option.some.injEq] at hs
          subst hs
          exact ⟨h.1, h.2, h.3, h.4⟩
        · simp at hs

end SynchingConcurrentOps

namespace SynchingTasks

/-! ## Shared states after a run of the worker -/

/-- A shared state that no task of `q` writes keeps its content. -/
theorem storeAll_of_not_mem (q : List Task) (sh : Nat → Option Outcome) (k : Nat)
    (hk : k ∉ futs q) : storeAll q sh k = sh k := by
  induction q generalizing sh with
  | nil => rfl
  | cons u q ih =>
    simp only [futs, List.map_cons, List.mem_cons, not_or] at hk
    rw [storeAll, ih _ (by simpa [futs] using hk.2), Function.update_noteq hk.1]

/-- With distinct futures, every task of `q` leaves its own outcome in its own
shared state. -/
theorem storeAll_of_mem (q : List Task) (sh : Nat → Option Outcome)
    (hnd : (futs q).Nodup) (t : Task) (ht : t ∈ q) :
    storeAll q sh t.fut = some (t.call ()) := by
  induction q generalizing sh with
  | nil => cases ht
  | cons u q ih =>
    simp only [futs, List.map_cons, List.nodup_cons] at hnd
    rw [storeAll]
    rcases List.mem_cons.1 ht with rfl | hmem
    · rw [storeAll_of_not_mem q _ _ (by simpa [futs] using hnd.1), Function.update_same]
    · exact ih _ (by simpa [futs] using hnd.2) hmem

end SynchingTasks

namespace WeaponsAtomicOp

theorem cooldown_inv_init : Inv init := by
  constructor <;> simp [init]

theorem cooldown_inv_operatorStep (s s1 : State) (h : Inv s) (hs : operatorStep s = some s1) :
    Inv s1 := by
  obtain ⟨⟨h1, h2⟩, h3, h4, h5⟩ := h
  unfold operatorStep at hs
  split at hs <;> (try split at hs) <;> simp only [Option.some.injEq, reduceCtorEq] at hs
  all_goals subst hs
  all_goals
    constructor <;> simp_all

theorem cooldown_inv_handlerStep (s s1 : State) (h : Inv s) (hs : handlerStep s = some s1) :
    Inv s1 := by
  obtain ⟨⟨h1, h2⟩, h3, h4, h5⟩ := h
  unfold handlerStep at hs
  split at hs <;> (try split at hs) <;> simp only [Option.some.injEq, reduceCtorEq] at hs
  all_goals subst hs
  all_goals
    constructor <;> simp_all
  · rw [SynchingTasks.wrapInt32_eq _ (by omega) (by omega)]
    omega
  · intro hop
    have := h3 hop
    omega

theorem cooldown_inv_run (sched : List Label) (s : State) (h : Inv s) : Inv (run sched s) := by
  induction sched generalizing s with
  | nil => exact h
  | cons l ls ih =>
    apply ih
    cases hs : step l s with
    | none => simpa using h
    | some s1 =>
      simp only [Option.getD_some]
      cases l with
      | operator => exact cooldown_inv_operatorStep s s1 h hs
      | handler => exact cooldown_inv_handlerStep s s1 h hs

end WeaponsAtomicOp

namespace SynchingTasks

set_option maxRecDepth 100000

theorem readInv_init : ReadInv initSys := by
  constructor <;> simp [initSys, readsDone]

theorem readInv_workerStep (j : Nat) (s s1 : Sys) (hr : ReadInv s)
    (hs : workerStep j s = some s1) : ReadInv s1 := by
  obtain ⟨e1, _, _, e4, _, e6, _⟩ := workerStep_effect j s s1 hs
  obtain ⟨r1, r2⟩ := hr
  exact ⟨by rw [e4, e1, e6]; exact r1, by rw [e4]; exact r2⟩

set_option maxHeartbeats 4000000 in
theorem readInv_mainStep (pick : Nat) (s s1 : Sys) (h : ValInv s) (hr : ReadInv s)
    (hs : mainStep pick s = some s1) : ReadInv s1 := by
  obtain ⟨v1, v2, v3, v4, v5, v6, v7, v8⟩ := h
  obtain ⟨r1, r2⟩ := hr
  unfold mainStep at hs
  simp only at hs
  split at hs <;> (try split at hs) <;> (try split at hs) <;>
    simp only [lockMutex_eq_some, Option.map_eq_some', Option.some.injEq, reduceCtorEq] at hs
  all_goals obtain ⟨_, ⟨hmx, rfl⟩, rfl⟩ := hs
  all_goals
    refine ⟨?_, ?_⟩
  all_goals
    try simp only [notifyOne_sharedCount, notifyOne_futPos] at *
  all_goals
    first
    | (simp_all [readsDone, unlockMutex, pushBack, setWorker, packageTask, setDone]
       done)
    | skip
  · rename_i hk
    intro _
    rw [v5, List.get?_eq_getElem?, List.getElem?_eq_none_iff, List.length_range] at hk
    omega
  · rename_i hv
    have hval := (v4 _ _ hv).2
    cases hval

/-- Every step moves the range-for of line 52 on by exactly the call of `get()`
that it completes. -/
theorem getCall_step (l : Label) (s : Sys) (h : ValInv s) :
    List.range (stepOrStay l s).futPos = List.range s.futPos ++ (getCall l s).toList := by
  unfold stepOrStay
  cases hs : step l s with
  | none =>
    cases l with
    | main pick =>
      simp only [step] at hs
      simp only [Option.getD_none, getCall]
      cases hpc : s.mainPc <;> simp only [Option.toList, List.append_nil]
      unfold mainStep at hs
      simp only [hpc] at hs
      split at hs
      · cases hs
      · rename_i k hk
        split at hs
        · rename_i hv
          simp [hk, hv]
        · cases hs
        · cases hs
    | worker j => simp [getCall]
    | spurious j => simp [getCall]
  | some s1 =>
    simp only [Option.getD_some]
    cases l with
    | worker j =>
      simp only [step] at hs
      rw [(workerStep_effect j s s1 hs).2.2.2.2.2.1]
      simp [getCall]
    | spurious j =>
      simp only [step] at hs
      split at hs
      · simp only [Option.some.injEq] at hs
        subst hs
        simp [getCall]
      · cases hs
    | main pick =>
      obtain ⟨v1, v2, v3, v4, v5, v6, v7, v8⟩ := h
      simp only [step] at hs
      unfold mainStep at hs
      simp only at hs
      split at hs <;> (try split at hs) <;> (try split at hs) <;>
        simp only [lockMutex_eq_some, Option.map_eq_some', Option.some.injEq, reduceCtorEq] at hs
      all_goals obtain ⟨_, ⟨hmx, rfl⟩, rfl⟩ := hs
      all_goals
        try simp only [notifyOne_futPos] at *
      all_goals
        first
        | (simp_all [getCall, loopRel, unlockMutex, pushBack, setWorker, packageTask, setDone]
           done)
        | skip
      · rename_i hpc _ hk
        simp only [getCall, hpc, hk, Option.toList, List.append_nil]
      · rename_i hpc _ k hk _ v hv
        have hk1 := hk
        rw [v5, List.get?_eq_getElem?] at hk1
        have hlt : s.futPos < s.sharedCount := by
          by_contra hge
          rw [List.getElem?_eq_none (by simpa using hge)] at hk1
          cases hk1
        rw [List.getElem?_range hlt, Option.some.injEq] at hk1
        subst hk1
        simp only [getCall, hpc, hk, hv, List.range_succ, Option.isSome_some, if_true,
          Option.toList]
      · rename_i hv
        have hval := (v4 _ _ hv).2
        cases hval

/-- The calls of `get()` completed along a schedule are those on the futures
from the position at the start to the position at the end, in order. -/
theorem getCalls_run (sched : List Label) (s : Sys) (h : ValInv s) :
    List.range (run sched s).futPos = List.range s.futPos ++ getCalls sched s := by
  induction sched generalizing s with
  | nil => simp [run, getCalls]
  | cons l ls ih =>
    have h1 : ValInv (stepOrStay l s) := valInv_run [l] s h
    rw [run, getCalls, ih _ h1, getCall_step l s h, List.append_assoc]

theorem readInv_run (sched : List Label) (s : Sys) (h : ValInv s) (hr : ReadInv s) :
    ReadInv (run sched s) := by
  induction sched generalizing s with
  | nil => exact hr
  | cons l ls ih =>
    have h1 : ValInv (stepOrStay l s) := valInv_run [l] s h
    apply ih _ h1
    unfold stepOrStay
    cases hs : step l s with
    | none => simpa using hr
    | some s1 =>
      simp only [Option.getD_some]
      cases l with
      | main pick => exact readInv_mainStep pick s s1 h hr hs
      | worker j => exact readInv_workerStep j s s1 hr hs
      | spurious j =>
        simp only [step] at hs
        split at hs
        · simp only [Option.some.injEq] at hs
          subst hs
          exact ⟨hr.allRead, hr.noRethrow⟩
        · cases hs

end SynchingTasks

namespace SynchingTasks

set_option maxRecDepth 100000

/-! ## The claims -/

/-- C1 (FIFO order): tasks pushed in the order `ts` by the block of lines 45-49
and then consumed by one worker are dequeued and invoked in the order `ts`;
at every moment of the consumption the dequeue history followed by the queue
is the submission order. In every execution of `main`, whatever the schedule,
the dequeued tasks followed by the queue are the pushed tasks in the order of
the pushes, and the invoked tasks followed by the one the worker holds are the
dequeued tasks in the order of the dequeues. -/
theorem C1_fifo_order (i pick : Nat) (ts : List Task) (s : Sys) (sched : List Label)
    (hready : Ready i s) (hq : s.taskQueue = []) :
    (∃ s1, enqueueAll pick ts s = some s1 ∧
      s1.pushedLog = s.pushedLog ++ ts ∧
      (∀ n, (workerRun i n s1).dequeuedLog ++ (workerRun i n s1).taskQueue
        = s.dequeuedLog ++ ts) ∧
      (workerRun i (7 * ts.length) s1).taskQueue = [] ∧
      (workerRun i (7 * ts.length) s1).dequeuedLog = s.dequeuedLog ++ ts ∧
      (workerRun i (7 * ts.length) s1).executedLog = s.executedLog ++ ts) ∧
    (run sched initSys).dequeuedLog ++ (run sched initSys).taskQueue
      = (run sched initSys).pushedLog ∧
    (run sched initSys).executedLog ++ inHand ((run sched initSys).workers 0)
      = (run sched initSys).dequeuedLog := by
  obtain ⟨s1, h1, h2, h3, h4, h5, h6, h7⟩ := enqueueAll_spec i pick ts s hready
  have hq1 : s1.taskQueue = ts := by rw [h3, hq]; rfl
  obtain ⟨d1, d2, d3, d4, d5, d6, d7, d8⟩ := workerRun_drain i ts s1 h2 hq1
  obtain ⟨_, _, _, hg⟩ := reachable_invariants sched
  refine ⟨⟨s1, h1, h5, ?_, d2, ?_, ?_⟩, hg.fifo, hg.exec⟩
  · intro n
    rw [workerRun_fifo, h6, hq1]
  · rw [d6, h6]
  · rw [d7, h7]

theorem C1_fifo_order_witness :
    Ready 0 started ∧ started.taskQueue = [] ∧
    (∃ s1, enqueueAll 0 sampleTasks started = some s1 ∧
      s1.pushedLog = started.pushedLog ++ sampleTasks ∧
      (∀ n, (workerRun 0 n s1).dequeuedLog ++ (workerRun 0 n s1).taskQueue
        = started.dequeuedLog ++ sampleTasks) ∧
      (workerRun 0 (7 * sampleTasks.length) s1).taskQueue = [] ∧
      (workerRun 0 (7 * sampleTasks.length) s1).dequeuedLog
        = started.dequeuedLog ++ sampleTasks ∧
      (workerRun 0 (7 * sampleTasks.length) s1).executedLog
        = started.executedLog ++ sampleTasks) ∧
    (run (roundRobin 30) initSys).dequeuedLog ++ (run (roundRobin 30) initSys).taskQueue
      = (run (roundRobin 30) initSys).pushedLog ∧
    (run (roundRobin 30) initSys).executedLog
        ++ inHand ((run (roundRobin 30) initSys).workers 0)
      = (run (roundRobin 30) initSys).dequeuedLog :=
  ⟨⟨rfl, Or.inl rfl⟩, rfl,
    C1_fifo_order 0 0 sampleTasks started (roundRobin 30) ⟨rfl, Or.inl rfl⟩ rfl⟩

/-- C2 (round trip): the future of a submitted pair `(f, x)`, `f` pure and
exception-free, yields the value `f x` once the worker has come to the task;
`submit(bound_op, 8, 20)` yields 28; in every execution of `main` a future that
is ready holds the value `heavyTask (k + 1)`, the square of `k + 1`, for the
`k`-th of the nine futures (counted from 0), the values printed by line 53 are
the first squares in order, and under a fair schedule `main` finishes having
printed all nine. -/
theorem C2_round_trip {α : Type} (f : α → Int) (x : α) (i pick : Nat) (s : Sys)
    (sched : List Label) (hready : Ready i s) (hd : s.done = false) :
    (∃ h s1, submit (pureCall f) x pick s = some (.ok (h, s1)) ∧
      futureGet h (workerRun i (7 * (s.taskQueue.length + 1)) s1) = some (.ok (f x))) ∧
    (∃ h s1, submit (pureCall fun p : Int × Int => bound_op p.1 p.2) (8, 20) pick s
        = some (.ok (h, s1)) ∧
      futureGet h (workerRun i (7 * (s.taskQueue.length + 1)) s1) = some (.ok 28)) ∧
    (∀ k v, futureGet k (run sched initSys) = some v →
      k < 9 ∧ v = .ok (heavyTask ((k : Int) + 1)) ∧
      v = .ok (((k : Int) + 1) * ((k : Int) + 1))) ∧
    (∃ n, n ≤ 9 ∧ (run sched initSys).printed
      = (List.range n).map fun (k : Nat) => ((k : Int) + 1) * ((k : Int) + 1)) ∧
    (run (roundRobin 90) initSys).mainPc = .finished ∧
    (run (roundRobin 90) initSys).printed = [1, 4, 9, 16, 25, 36, 49, 64, 81] := by
  have hv := (reachable_invariants sched).2.2.1
  refine ⟨submit_round_trip (pureCall f) x i pick s hready hd,
    submit_round_trip (pureCall fun p : Int × Int => bound_op p.1 p.2) (8, 20) i pick s
      hready hd,
    fun k v hk => ?_, ⟨(run sched initSys).futPos, ?_, ?_⟩, by decide, by decide⟩
  · obtain ⟨h1, h2⟩ := hv.ready k v hk
    have hk9 : k < 9 := Nat.lt_of_lt_of_le h1 hv.count
    exact ⟨hk9, h2, by rw [h2, heavyTask_square k hk9]⟩
  · exact Nat.le_trans hv.printedPrefix.1 hv.count
  · rw [hv.printedPrefix.2]
    apply List.map_congr_left
    intro k hk
    rw [List.mem_range] at hk
    exact heavyTask_square k
      (Nat.lt_of_lt_of_le hk (Nat.le_trans hv.printedPrefix.1 hv.count))

theorem C2_round_trip_witness :
    Ready 0 started ∧ started.done = false ∧
    (∃ h s1, submit (pureCall heavyTask) 3 0 started = some (.ok (h, s1)) ∧
      futureGet h (workerRun 0 (7 * (started.taskQueue.length + 1)) s1)
        = some (.ok (heavyTask 3))) ∧
    (∃ h s1, submit (pureCall fun p : Int × Int => bound_op p.1 p.2) (8, 20) 0 started
        = some (.ok (h, s1)) ∧
      futureGet h (workerRun 0 (7 * (started.taskQueue.length + 1)) s1)
        = some (.ok 28)) ∧
    (∀ k v, futureGet k (run (roundRobin 40) initSys) = some v →
      k < 9 ∧ v = .ok (heavyTask ((k : Int) + 1)) ∧
      v = .ok (((k : Int) + 1) * ((k : Int) + 1))) ∧
    (∃ n, n ≤ 9 ∧ (run (roundRobin 40) initSys).printed
      = (List.range n).map fun (k : Nat) => ((k : Int) + 1) * ((k : Int) + 1)) ∧
    (run (roundRobin 90) initSys).mainPc = .finished ∧
    (run (roundRobin 90) initSys).printed = [1, 4, 9, 16, 25, 36, 49, 64, 81] :=
  ⟨⟨rfl, Or.inl rfl⟩, rfl,
    C2_round_trip heavyTask 3 0 0 started (roundRobin 40) ⟨rfl, Or.inl rfl⟩ rfl⟩

/-- C3 (shutdown drain): whatever the queue holds when lines 55-60 set `done`,
a worker that is at the top of its loop or inside the wait of line 27 (notified
or not) then invokes every queued task and exits; whenever it has exited the
queue is empty and every queued task has been invoked. In every execution of
`main`, whatever the schedule, a worker that has exited leaves an empty queue,
`done` set and every pushed task invoked. -/
theorem C3_shutdown_drain (i pick : Nat) (s : Sys) (sched : List Label)
    (hpos : Ready i s ∨ Waiting i s) :
    (∃ s1, closeBlock pick s = some s1 ∧
      ((workerRun i (7 * s.taskQueue.length + 3) s1).workers i).pc = .exited ∧
      (∀ n, ((workerRun i n s1).workers i).pc = .exited →
        (workerRun i n s1).taskQueue = [] ∧
        (workerRun i n s1).executedLog = s.executedLog ++ s.taskQueue)) ∧
    (((run sched initSys).workers 0).pc = .exited →
      (run sched initSys).taskQueue = [] ∧ (run sched initSys).done = true ∧
      (run sched initSys).executedLog = (run sched initSys).pushedLog) := by
  obtain ⟨s1, c1, c2, c3, c4, c5, c6, c7⟩ := closeBlock_spec i pick s hpos
  obtain ⟨x1, x2, x3, x4⟩ := workerRun_drain_exit i s1 c2 c3
  rw [c4] at x1 x2 x3 x4
  obtain ⟨_, _, _, hg⟩ := reachable_invariants sched
  refine ⟨⟨s1, c1, x1, fun n hn => ?_⟩, fun hex => ?_⟩
  · rw [workerRun_exited_eq i n _ s1 hn x1]
    exact ⟨x2, by rw [x4, c7]⟩
  · obtain ⟨hq, hd⟩ := hg.exitedEmpty hex
    refine ⟨hq, hd, ?_⟩
    have h1 := hg.exec
    have h2 := hg.fifo
    simp only [inHand, hex, List.append_nil] at h1
    rw [hq, List.append_nil] at h2
    rw [h1, h2]

theorem C3_shutdown_drain_witness :
    ∃ s0, enqueueAll 0 sampleTasks (workerRun 0 2 started) = some s0 ∧
    (Ready 0 s0 ∨ Waiting 0 s0) ∧
    (∃ s1, closeBlock 0 s0 = some s1 ∧
      ((workerRun 0 (7 * s0.taskQueue.length + 3) s1).workers 0).pc = .exited ∧
      (∀ n, ((workerRun 0 n s1).workers 0).pc = .exited →
        (workerRun 0 n s1).taskQueue = [] ∧
        (workerRun 0 n s1).executedLog = s0.executedLog ++ s0.taskQueue)) ∧
    (((run (roundRobin 90) initSys).workers 0).pc = .exited →
      (run (roundRobin 90) initSys).taskQueue = [] ∧
      (run (roundRobin 90) initSys).done = true ∧
      (run (roundRobin 90) initSys).executedLog = (run (roundRobin 90) initSys).pushedLog) :=
  ⟨_, rfl, Or.inl ⟨rfl, Or.inr ⟨rfl, by decide⟩⟩,
    C3_shutdown_drain 0 0 _ (roundRobin 90) (Or.inl ⟨rfl, Or.inr ⟨rfl, by decide⟩⟩)⟩

/-- C4, the claim as written fails: after lines 55-60 have set `done`, the
block of lines 45-49 still succeeds and appends its task. -/
theorem C4_counterexample :
    (closeBlock 0 started).map (fun s => (s.done, futs s.taskQueue)) = some (true, []) ∧
    ((closeBlock 0 started).bind (enqueueBlock ⟨0, fun _ => .ok (heavyTask 1)⟩ 0)).map
      (fun s => (s.done, futs s.taskQueue)) = some (true, [0]) :=
  ⟨rfl, rfl⟩

/-- C4 (amended): the push block has no check of `done`; in `main` every
`push_back` precedes the store of line 57 in program order, so in every
execution, once `done` is set nothing is pushed any more and the queue only
loses tasks at its front. -/
theorem C4_no_push_after_done (sched later : List Label)
    (hd : (run sched initSys).done = true) :
    (run later (run sched initSys)).pushedLog = (run sched initSys).pushedLog ∧
    (run later (run sched initSys)).taskQueue <:+ (run sched initSys).taskQueue :=
  closed_run later _ hd (doneAfter_run sched initSys (by simp [initSys]) hd)

theorem C4_no_push_after_done_witness :
    (run (roundRobin 90) initSys).done = true ∧
    (run (roundRobin 5) (run (roundRobin 90) initSys)).pushedLog
      = (run (roundRobin 90) initSys).pushedLog ∧
    (run (roundRobin 5) (run (roundRobin 90) initSys)).taskQueue
      <:+ (run (roundRobin 90) initSys).taskQueue :=
  ⟨by decide, C4_no_push_after_done (roundRobin 90) (roundRobin 5) (by decide)⟩

/-- C5 (terminal dequeue): with an empty queue and `done` set, the wait of
line 27 returns at once (the worker does not join the waiters), line 28 breaks
out of the loop, and no task is invoked. -/
theorem C5_terminal_dequeue (i : Nat) (s : Sys) (hready : Ready i s)
    (hq : s.taskQueue = []) (hd : s.done = true) :
    ((workerRun i 1 s).workers i).pc = .waitPred ∧
    ((workerRun i 2 s).workers i).pc = .checkDone ∧
    (workerRun i 2 s).cvWaiters = s.cvWaiters ∧
    ((workerRun i 3 s).workers i).pc = .exited ∧
    (workerRun i 3 s).executedLog = s.executedLog ∧
    (workerRun i 3 s).shared = s.shared ∧
    (workerRun i 3 s).queueMutex = none := by
  obtain ⟨e1, e2, e3, e4, e5, e6, e7, e8, e9, e10, e11⟩ := workerRun_exit i s hready hq hd
  exact ⟨e1, e2, e3, e4, e11, e8, e6⟩

theorem C5_terminal_dequeue_witness :
    Ready 0 (setDone started) ∧ (setDone started).taskQueue = [] ∧
    (setDone started).done = true ∧
    ((workerRun 0 1 (setDone started)).workers 0).pc = .waitPred ∧
    ((workerRun 0 2 (setDone started)).workers 0).pc = .checkDone ∧
    (workerRun 0 2 (setDone started)).cvWaiters = (setDone started).cvWaiters ∧
    ((workerRun 0 3 (setDone started)).workers 0).pc = .exited ∧
    (workerRun 0 3 (setDone started)).executedLog = (setDone started).executedLog ∧
    (workerRun 0 3 (setDone started)).shared = (setDone started).shared ∧
    (workerRun 0 3 (setDone started)).queueMutex = none :=
  ⟨⟨rfl, Or.inl rfl⟩, rfl, rfl,
    C5_terminal_dequeue 0 (setDone started) ⟨rfl, Or.inl rfl⟩ rfl rfl⟩

/-- C6 (exactly-once execution): `N` tasks pushed by the block of lines 45-49
before lines 55-60 set `done` are each invoked by the worker, in total `N`
invocations, every future as often as it was submitted (once when the futures
are distinct). In every execution of `main`, whatever the schedule, no task is
invoked twice, the invoked tasks are an initial part of the pushed ones, and
when `main` has finished all nine tasks have been invoked. -/
theorem C6_exactly_once (i pick : Nat) (ts : List Task) (s : Sys) (sched : List Label)
    (hready : Ready i s) (hq : s.taskQueue = []) (hlog : s.executedLog = []) :
    (∃ s1 s2, enqueueAll pick ts s = some s1 ∧ closeBlock pick s1 = some s2 ∧
      ((workerRun i (7 * ts.length + 3) s2).workers i).pc = .exited ∧
      (workerRun i (7 * ts.length + 3) s2).executedLog = ts ∧
      (workerRun i (7 * ts.length + 3) s2).executedLog.length = ts.length ∧
      (∀ k, (futs (workerRun i (7 * ts.length + 3) s2).executedLog).count k
        = (futs ts).count k) ∧
      ((futs ts).Nodup → ∀ t ∈ ts,
        (futs (workerRun i (7 * ts.length + 3) s2).executedLog).count t.fut = 1)) ∧
    (futs (run sched initSys).executedLog).Nodup ∧
    (run sched initSys).executedLog <+: (run sched initSys).pushedLog ∧
    ((run sched initSys).mainPc = .finished →
      (run sched initSys).executedLog = (run sched initSys).pushedLog ∧
      futs (run sched initSys).executedLog = List.range 9) := by
  obtain ⟨s1, h1, h2, h3, h4, h5, h6, h7⟩ := enqueueAll_spec i pick ts s hready
  have hq1 : s1.taskQueue = ts := by rw [h3, hq]; rfl
  obtain ⟨s2, c1, c2, c3, c4, c5, c6, c7⟩ := closeBlock_spec i pick s1 (Or.inl h2)
  obtain ⟨x1, x2, x3, x4⟩ := workerRun_drain_exit i s2 c2 c3
  rw [c4, hq1] at x1 x2 x3 x4
  rw [c7, h7, hlog, List.nil_append] at x4
  refine ⟨⟨s1, s2, h1, c1, x1, x4, ?_, ?_, ?_⟩, (executed_initial sched).2,
    (executed_initial sched).1, finished_all_executed sched⟩
  · rw [x4]
  · intro k; rw [x4]
  · intro hnd t ht
    rw [x4]
    exact List.count_eq_one_of_mem hnd (List.mem_map_of_mem Task.fut ht)

theorem C6_exactly_once_witness :
    Ready 0 started ∧ started.taskQueue = [] ∧ started.executedLog = [] ∧
    (∃ s1 s2, enqueueAll 0 sampleTasks started = some s1 ∧ closeBlock 0 s1 = some s2 ∧
      ((workerRun 0 (7 * sampleTasks.length + 3) s2).workers 0).pc = .exited ∧
      (workerRun 0 (7 * sampleTasks.length + 3) s2).executedLog = sampleTasks ∧
      (workerRun 0 (7 * sampleTasks.length + 3) s2).executedLog.length
        = sampleTasks.length ∧
      (∀ k, (futs (workerRun 0 (7 * sampleTasks.length + 3) s2).executedLog).count k
        = (futs sampleTasks).count k) ∧
      ((futs sampleTasks).Nodup → ∀ t ∈ sampleTasks,
        (futs (workerRun 0 (7 * sampleTasks.length + 3) s2).executedLog).count t.fut
          = 1)) ∧
    (futs (run (roundRobin 90) initSys).executedLog).Nodup ∧
    (run (roundRobin 90) initSys).executedLog <+: (run (roundRobin 90) initSys).pushedLog ∧
    ((run (roundRobin 90) initSys).mainPc = .finished →
      (run (roundRobin 90) initSys).executedLog = (run (roundRobin 90) initSys).pushedLog ∧
      futs (run (roundRobin 90) initSys).executedLog = List.range 9) :=
  ⟨⟨rfl, Or.inl rfl⟩, rfl, rfl,
    C6_exactly_once 0 0 sampleTasks started (roundRobin 90) ⟨rfl, Or.inl rfl⟩ rfl rfl⟩

/-- C7 (no lock while task code runs): in every state that `main` and its
workers can reach, under any schedule, a worker owns `queueMutex` exactly at the
program points of lines 26-31, so not at the call `task()` of line 32; in every
state that the two threads of the data queue can reach, `data_processing_thread`
owns `mut` exactly at the program points of lines 106-125, so not at
`process(data)`. -/
theorem C7_no_lock_while_task_runs (sched : List Label) (i : Nat) {Chunk : Type}
    (is_last_chunk : Chunk → Bool) (dsched : List (SynchingConcurrentOps.Label Chunk)) :
    ((run sched initSys).queueMutex = some (.worker i) ↔
      holdsLock ((run sched initSys).workers i).pc = true) ∧
    holdsLock .runTask = false ∧
    (((run sched initSys).workers i).pc = .runTask →
      (run sched initSys).queueMutex ≠ some (.worker i)) ∧
    ((SynchingConcurrentOps.run is_last_chunk dsched
        (SynchingConcurrentOps.init Chunk)).mutOwner = some .processing ↔
      SynchingConcurrentOps.procHoldsLock (SynchingConcurrentOps.run is_last_chunk dsched
        (SynchingConcurrentOps.init Chunk)).procPc = true) ∧
    SynchingConcurrentOps.procHoldsLock .process = false ∧
    ((SynchingConcurrentOps.run is_last_chunk dsched
        (SynchingConcurrentOps.init Chunk)).procPc = .process →
      (SynchingConcurrentOps.run is_last_chunk dsched
        (SynchingConcurrentOps.init Chunk)).mutOwner ≠ some .processing) := by
  have hl := (lockInv_run sched initSys lockInv_init).worker i
  have hd := SynchingConcurrentOps.inv_run is_last_chunk dsched _
    (SynchingConcurrentOps.inv_init)
  refine ⟨hl.owns, rfl, fun hpc hm => ?_, hd.procOwns, rfl, fun hpc hm => ?_⟩
  · have := hl.owns.1 hm
    rw [hpc] at this
    cases this
  · have := hd.procOwns.1 hm
    rw [hpc] at this
    cases this

theorem C7_no_lock_while_task_runs_witness :
    ((run (roundRobin 12) initSys).workers 0).pc = .runTask ∧
    (run (roundRobin 12) initSys).queueMutex ≠ some (.worker 0) ∧
    (SynchingConcurrentOps.run (fun c => c == 9) SynchingConcurrentOps.sampleSchedule
      (SynchingConcurrentOps.init Nat)).procPc = .process ∧
    (SynchingConcurrentOps.run (fun c => c == 9) SynchingConcurrentOps.sampleSchedule
      (SynchingConcurrentOps.init Nat)).mutOwner ≠ some .processing :=
  ⟨by decide,
    (C7_no_lock_while_task_runs (roundRobin 12) 0 (fun c => c == 9)
      SynchingConcurrentOps.sampleSchedule).2.2.1 (by decide),
    by decide,
    (C7_no_lock_while_task_runs (roundRobin 12) 0 (fun c => c == 9)
      SynchingConcurrentOps.sampleSchedule).2.2.2.2.2 (by decide)⟩

/-- C8 (the wait predicate is re-checked): in every state that `main` and its
workers can reach, under any schedule with any number of spurious wake-ups, a
worker that is past the wait of line 27 sees a non-empty queue or `done`; a
worker that evaluates the predicate to false goes to sleep, and a worker that
wakes up evaluates the predicate again. In every reachable state of the data
queue, `data_processing_thread` past its wait sees a non-empty queue. -/
theorem C8_wait_predicate_rechecked (sched : List Label) (i : Nat) {Chunk : Type}
    (is_last_chunk : Chunk → Bool) (dsched : List (SynchingConcurrentOps.Label Chunk)) :
    (((run sched initSys).workers i).pc = .checkDone →
      (run sched initSys).taskQueue ≠ [] ∨ (run sched initSys).done = true) ∧
    (∀ s1, workerStep i (run sched initSys) = some s1 →
      ((run sched initSys).workers i).pc = .waitPred →
      ((run sched initSys).taskQueue = [] ∧ (run sched initSys).done = false) →
      (s1.workers i).pc = .blocked ∧ i ∈ s1.cvWaiters) ∧
    (∀ s1, workerStep i (run sched initSys) = some s1 →
      ((run sched initSys).workers i).pc = .blocked → (s1.workers i).pc = .waitPred) ∧
    ((SynchingConcurrentOps.run is_last_chunk dsched
        (SynchingConcurrentOps.init Chunk)).procPc = .front →
      (SynchingConcurrentOps.run is_last_chunk dsched
        (SynchingConcurrentOps.init Chunk)).data_queue ≠ []) ∧
    (∀ s1, SynchingConcurrentOps.procStep is_last_chunk (SynchingConcurrentOps.run
        is_last_chunk dsched (SynchingConcurrentOps.init Chunk)) = some s1 →
      (SynchingConcurrentOps.run is_last_chunk dsched
        (SynchingConcurrentOps.init Chunk)).procPc = .waitPred →
      (SynchingConcurrentOps.run is_last_chunk dsched
        (SynchingConcurrentOps.init Chunk)).data_queue = [] →
      s1.procPc = .blocked ∧ s1.waiting = true) ∧
    (∀ s1, SynchingConcurrentOps.procStep is_last_chunk (SynchingConcurrentOps.run
        is_last_chunk dsched (SynchingConcurrentOps.init Chunk)) = some s1 →
      (SynchingConcurrentOps.run is_last_chunk dsched
        (SynchingConcurrentOps.init Chunk)).procPc = .blocked →
      s1.procPc = .waitPred) := by
  have hl := (lockInv_run sched initSys lockInv_init).worker i
  have hd := SynchingConcurrentOps.inv_run is_last_chunk dsched _
    (SynchingConcurrentOps.inv_init)
  generalize run sched initSys = s at hl
  generalize SynchingConcurrentOps.run is_last_chunk dsched _ = d at hd
  refine ⟨fun hpc => ?_, fun s1 hs hpc hq => ?_, fun s1 hs hpc => ?_,
    fun hpc => hd.nonEmpty (Or.inl hpc), fun s1 hs hpc hq => ?_, fun s1 hs hpc => ?_⟩
  · have := hl.predChecked hpc
    simpa [waitPredicate] using this
  · simp [workerStep, hpc, waitPredicate, hq.1, hq.2] at hs
    subst hs
    simp [setWorker, unlockMutex]
  · simp only [workerStep, hpc] at hs
    split at hs
    · simp at hs
    · simp only [lockMutex_eq_some, Option.map_eq_some'] at hs
      obtain ⟨_, ⟨_, rfl⟩, rfl⟩ := hs
      simp [setWorker]
  · simp [SynchingConcurrentOps.procStep, hpc, hq] at hs
    subst hs
    simp
  · simp only [SynchingConcurrentOps.procStep, hpc] at hs
    split at hs
    · simp at hs
    · split at hs
      · simp only [Option.some.injEq] at hs
        subst hs
        rfl
      · simp at hs

theorem C8_wait_predicate_rechecked_witness :
    ((run (roundRobin 8) initSys).workers 0).pc = .checkDone ∧
    ((run (roundRobin 8) initSys).taskQueue ≠ [] ∨ (run (roundRobin 8) initSys).done = true) ∧
    (SynchingConcurrentOps.run (fun c => c == 9) (SynchingConcurrentOps.sampleSchedule.take 10)
      (SynchingConcurrentOps.init Nat)).procPc = .front ∧
    (SynchingConcurrentOps.run (fun c => c == 9) (SynchingConcurrentOps.sampleSchedule.take 10)
      (SynchingConcurrentOps.init Nat)).data_queue ≠ [] :=
  ⟨by decide,
    (C8_wait_predicate_rechecked (roundRobin 8) 0 (fun c => c == 9)
      (SynchingConcurrentOps.sampleSchedule.take 10)).1 (by decide),
    by decide,
    (C8_wait_predicate_rechecked (roundRobin 8) 0 (fun c => c == 9)
      (SynchingConcurrentOps.sampleSchedule.take 10)).2.2.2.1 (by decide)⟩

/-- C9 (close is idempotent on the queue state): running lines 55-60 a second
time leaves `done` set and the task sequence as it was; the first run does not
change the task sequence either. -/
theorem C9_close_idempotent (p1 p2 : Nat) (s : Sys) (hfree : s.queueMutex = none) :
    ∃ s1 s2, closeBlock p1 s = some s1 ∧ closeBlock p2 s1 = some s2 ∧
      s1.done = true ∧ s2.done = s1.done ∧
      s1.taskQueue = s.taskQueue ∧ s2.taskQueue = s1.taskQueue ∧
      s1.queueMutex = none ∧ s2.queueMutex = none := by
  have hm1 : (notifyOne p1 (unlockMutex (setDone { s with queueMutex := some .main }))).queueMutex
      = none := by simp [unlockMutex, setDone]
  refine ⟨_, _, closeBlock_free p1 s hfree, closeBlock_free p2 _ hm1, ?_⟩
  simp [unlockMutex, setDone]

theorem C9_close_idempotent_witness :
    started.queueMutex = none ∧
    ∃ s1 s2, closeBlock 0 started = some s1 ∧ closeBlock 1 s1 = some s2 ∧
      s1.done = true ∧ s2.done = s1.done ∧
      s1.taskQueue = started.taskQueue ∧ s2.taskQueue = s1.taskQueue ∧
      s1.queueMutex = none ∧ s2.queueMutex = none :=
  ⟨rfl, C9_close_idempotent 0 1 started rfl⟩

/-- C10, the claim as written fails: with two workers inside the wait,
lines 55-60 notify one of them; the other one is still waiting afterwards and
cannot move, also after the notified worker has exited. -/
theorem C10_counterexample :
    twoWaiting.cvWaiters = [0, 1] ∧ (twoWaiting.workers 0).pc = .blocked ∧
    (twoWaiting.workers 1).pc = .blocked ∧
    (closeBlock 0 twoWaiting).map
      (fun s => (s.done, s.cvWaiters, (workerStep 1 s).isSome)) = some (true, [1], false) ∧
    (closeBlock 1 twoWaiting).map
      (fun s => (s.done, s.cvWaiters, (workerStep 0 s).isSome)) = some (true, [0], false) ∧
    (closeBlock 0 twoWaiting).map
      (fun s => (((workerRun 0 3 s).workers 0).pc, (workerRun 0 3 s).cvWaiters,
        (workerStep 1 (workerRun 0 3 s)).isSome)) = some (.exited, [1], false) :=
  ⟨rfl, rfl, rfl, rfl, rfl, rfl⟩

/-- C10 (amended): `main` starts one worker, so at most one worker waits;
when `main` executes the `notify_one` of line 60, `done` is set, no worker is
left waiting afterwards, and a worker that was inside the wait re-locks, drains
the queue and exits. -/
theorem C10_close_wakes_the_worker (sched : List Label) (pick : Nat)
    (hpc : (run sched initSys).mainPc = .notifyDone) :
    (run sched initSys).done = true ∧
    (run sched initSys).cvWaiters.length ≤ 1 ∧
    (stepOrStay (.main pick) (run sched initSys)).cvWaiters = [] ∧
    (stepOrStay (.main pick) (run sched initSys)).mainPc = .join ∧
    ∀ i, ((stepOrStay (.main pick) (run sched initSys)).workers i).pc = .blocked →
      Ready i (stepOrStay (.main pick) (run sched initSys)) ∧
      ((workerRun i
          (7 * (stepOrStay (.main pick) (run sched initSys)).taskQueue.length + 3)
          (stepOrStay (.main pick) (run sched initSys))).workers i).pc = .exited := by
  obtain ⟨hl, hp⟩ := invariants_run sched initSys lockInv_init progInv_init
  generalize run sched initSys = s at hpc hl hp
  have hd : s.done = true := hp.closed (by rw [hpc]; rfl)
  have hstep : stepOrStay (.main pick) s = { notifyOne pick s with mainPc := .join } := by
    simp [stepOrStay, step, mainStep, hpc]
  have hcv : (notifyOne pick s).cvWaiters = [] := by
    rcases hp.waiters with h | ⟨h, _⟩ <;> simp [notifyOne, h, Nat.mod_one]
  rw [hstep]
  refine ⟨hd, ?_, hcv, rfl, fun i hb => ?_⟩
  · rcases hp.waiters with h | ⟨h, _⟩ <;> simp [h]
  · have hb1 : (s.workers i).pc = .blocked := by simpa using hb
    have hm := mutex_free_of_blocked s hl hp i hb1 (by rw [hpc]; rfl)
    have hr : Ready i { notifyOne pick s with mainPc := .join } :=
      ⟨by simpa using hm, Or.inr ⟨hb, by simp [hcv]⟩⟩
    exact ⟨hr, (workerRun_drain_exit i _ hr (by simpa using hd)).1⟩

theorem C10_close_wakes_the_worker_witness :
    (run (roundRobin 86) initSys).mainPc = .notifyDone ∧
    (run (roundRobin 86) initSys).done = true ∧
    (run (roundRobin 86) initSys).cvWaiters.length ≤ 1 ∧
    (stepOrStay (.main 0) (run (roundRobin 86) initSys)).cvWaiters = [] ∧
    (stepOrStay (.main 0) (run (roundRobin 86) initSys)).mainPc = .join ∧
    ∀ i, ((stepOrStay (.main 0) (run (roundRobin 86) initSys)).workers i).pc = .blocked →
      Ready i (stepOrStay (.main 0) (run (roundRobin 86) initSys)) ∧
      ((workerRun i
          (7 * (stepOrStay (.main 0) (run (roundRobin 86) initSys)).taskQueue.length + 3)
          (stepOrStay (.main 0) (run (roundRobin 86) initSys))).workers i).pc = .exited :=
  ⟨by decide, C10_close_wakes_the_worker (roundRobin 86) 0 (by decide)⟩

end SynchingTasks

namespace SynchingTasks

set_option maxRecDepth 100000

/-- C11 (failure containment): a worker that drains a queue of tasks with
distinct futures, some of which throw, invokes every task and is back at the
top of its loop afterwards; each future holds the outcome of its own task, the
thrown exception for a task that throws, which `get()` rethrows; shared states
of other futures are untouched. In any state, the call `task()` of a task that
throws takes the worker back to the top of the loop, stores the exception in
the shared state of that task and changes no other shared state. -/
theorem C11_failure_containment (i : Nat) (s : Sys) (hready : Ready i s)
    (hnd : (futs s.taskQueue).Nodup) :
    Ready i (workerRun i (7 * s.taskQueue.length) s) ∧
    (workerRun i (7 * s.taskQueue.length) s).executedLog = s.executedLog ++ s.taskQueue ∧
    (∀ t ∈ s.taskQueue,
      futureGet t.fut (workerRun i (7 * s.taskQueue.length) s) = some (t.call ())) ∧
    (∀ t ∈ s.taskQueue, ∀ e, t.call () = .error e →
      Future.get ⟨some t.fut⟩ (workerRun i (7 * s.taskQueue.length) s)
        = some (.rethrown e, ⟨none⟩)) ∧
    (∀ k, k ∉ futs s.taskQueue →
      futureGet k (workerRun i (7 * s.taskQueue.length) s) = futureGet k s) ∧
    (∀ (s0 : Sys) (j : Nat) (t : Task) (e : String),
      (s0.workers j).pc = .runTask → (s0.workers j).task = some t → t.call () = .error e →
      ∃ s1, workerStep j s0 = some s1 ∧ (s1.workers j).pc = .lockQueue ∧
        s1.shared t.fut = some (.error e) ∧ ∀ k, k ≠ t.fut → s1.shared k = s0.shared k) := by
  obtain ⟨d1, d2, d3, d4, d5, d6, d7, d8⟩ := workerRun_drain i s.taskQueue s hready rfl
  have hget : ∀ t ∈ s.taskQueue,
      futureGet t.fut (workerRun i (7 * s.taskQueue.length) s) = some (t.call ()) := by
    intro t ht
    unfold futureGet
    rw [d8]
    exact storeAll_of_mem s.taskQueue s.shared hnd t ht
  refine ⟨d1, d7, hget, fun t ht e he => ?_, fun k hk => ?_, fun s0 j t e hpc htask he => ?_⟩
  · simp only [Future.get, hget t ht, he, GetResult.ofOutcome]
  · unfold futureGet
    rw [d8]
    exact storeAll_of_not_mem s.taskQueue s.shared k hk
  · refine ⟨setWorker j ⟨.lockQueue, none⟩ (invoke t s0), ?_, ?_, ?_, fun k hk => ?_⟩
    · simp [workerStep, hpc, htask]
    · simp [setWorker]
    · simp [setWorker, invoke, he]
    · simp [setWorker, invoke, Function.update_noteq hk]

theorem C11_failure_containment_witness :
    Ready 0 withFailure ∧ (futs withFailure.taskQueue).Nodup ∧
    Ready 0 (workerRun 0 (7 * withFailure.taskQueue.length) withFailure) ∧
    (workerRun 0 (7 * withFailure.taskQueue.length) withFailure).executedLog
      = withFailure.executedLog ++ withFailure.taskQueue ∧
    (∀ t ∈ withFailure.taskQueue,
      futureGet t.fut (workerRun 0 (7 * withFailure.taskQueue.length) withFailure)
        = some (t.call ())) ∧
    (∀ t ∈ withFailure.taskQueue, ∀ e, t.call () = .error e →
      Future.get ⟨some t.fut⟩ (workerRun 0 (7 * withFailure.taskQueue.length) withFailure)
        = some (.rethrown e, ⟨none⟩)) ∧
    (∀ k, k ∉ futs withFailure.taskQueue →
      futureGet k (workerRun 0 (7 * withFailure.taskQueue.length) withFailure)
        = futureGet k withFailure) ∧
    (∀ (s0 : Sys) (j : Nat) (t : Task) (e : String),
      (s0.workers j).pc = .runTask → (s0.workers j).task = some t → t.call () = .error e →
      ∃ s1, workerStep j s0 = some s1 ∧ (s1.workers j).pc = .lockQueue ∧
        s1.shared t.fut = some (.error e) ∧ ∀ k, k ≠ t.fut → s1.shared k = s0.shared k) :=
  ⟨⟨rfl, Or.inl rfl⟩, by decide,
    C11_failure_containment 0 withFailure ⟨rfl, Or.inl rfl⟩ (by decide)⟩

/-- C12, the claim as written fails: on a completed `std::future` the first
`get()` returns the value 4 and the second `get()` on the same object finds no
shared state. -/
theorem C12_counterexample :
    futureGet 0 (workerRun 0 21 withFailure) = some (.ok 4) ∧
    Future.get ⟨some 0⟩ (workerRun 0 21 withFailure) = some (.returned 4, ⟨none⟩) ∧
    ((Future.get ⟨some 0⟩ (workerRun 0 21 withFailure)).bind fun r =>
      Future.get r.2 (workerRun 0 21 withFailure)) = some (.noState, ⟨none⟩) :=
  ⟨rfl, rfl, rfl⟩

/-- C12 (amended): a completed `std::future` is read once: the first `get()`
gives the stored outcome and leaves the object without shared state, and
`get()` on that object then finds nothing to retrieve. `main` reads each of its
futures exactly once, in order: in every execution the calls of `get()` made so
far are those on the futures 0, 1, ... up to the position of the range-for, one
call each and in that order, each call completes on a ready future and leaves
it without shared state, the printed values are the values of these futures,
no call throws, and once `main` is past the range-for the calls are exactly
the nine futures of the vector, in the order of the vector; under a fair
schedule `main` gets there. Through a `std::shared_future` every read gives the
stored outcome and leaves the object as it was, so a second read gives the
same. -/
theorem C12_single_read (s : Sys) (k : Nat) (o : Outcome) (sched : List Label)
    (hr : futureGet k s = some o) :
    Future.get ⟨some k⟩ s = some (.ofOutcome o, ⟨none⟩) ∧
    ((Future.get ⟨some k⟩ s).bind fun r => Future.get r.2 s) = some (.noState, ⟨none⟩) ∧
    getCalls sched initSys = List.range (run sched initSys).futPos ∧
    (getCalls sched initSys).Nodup ∧
    (∀ l s0 j, getCall l s0 = some j →
      s0.futures.get? s0.futPos = some j ∧
      ∃ r, Future.get ⟨some j⟩ s0 = some (r, ⟨none⟩)) ∧
    (run sched initSys).printed
      = (getCalls sched initSys).map (fun (j : Nat) => heavyTask ((j : Int) + 1)) ∧
    (readsDone (run sched initSys).mainPc = true →
      getCalls sched initSys = (run sched initSys).futures ∧
      getCalls sched initSys = List.range 9) ∧
    (run sched initSys).mainPc ≠ .terminated ∧
    (run (roundRobin 90) initSys).mainPc = .finished ∧
    getCalls (roundRobin 90) initSys = [0, 1, 2, 3, 4, 5, 6, 7, 8] ∧
    (run sched initSys).futures.Nodup ∧
    (run sched initSys).printed.length = (run sched initSys).futPos ∧
    SharedFuture.get ⟨k⟩ s = some (.ofOutcome o, ⟨k⟩) ∧
    ((SharedFuture.get ⟨k⟩ s).bind fun r => SharedFuture.get r.2 s)
      = some (.ofOutcome o, ⟨k⟩) := by
  obtain ⟨_, _, hv, hg⟩ := reachable_invariants sched
  have hread := readInv_run sched initSys valInv_init readInv_init
  have hcalls : getCalls sched initSys = List.range (run sched initSys).futPos := by
    have h := getCalls_run sched initSys valInv_init
    simpa [initSys] using h.symm
  refine ⟨?_, ?_, hcalls, ?_, fun l s0 j hj => ?_, ?_, fun hdone => ?_, hread.noRethrow,
    by decide, by decide, ?_, ?_, ?_, ?_⟩
  · simp [Future.get, hr]
  · simp [Future.get, hr]
  · rw [hcalls]
    exact List.nodup_range _
  · unfold getCall at hj
    split at hj
    · split at hj
      · split at hj
        · cases hj
        · rename_i k0 hk0
          split at hj
          · rename_i hsome
            simp only [Option.some.injEq] at hj
            subst hj
            obtain ⟨o0, ho0⟩ := Option.isSome_iff_exists.1 hsome
            exact ⟨hk0, .ofOutcome o0, by simp [Future.get, ho0]⟩
          · cases hj
      · cases hj
    · cases hj
  · rw [hcalls, hv.printedPrefix.2]
  · have h9 : (run sched initSys).sharedCount = 9 :=
      hg.allBuilt (by
        revert hdone
        cases (run sched initSys).mainPc <;> simp [readsDone, pastLoop])
    have hpos := hread.allRead hdone
    rw [hcalls, hv.futuresRange, hpos, h9]
    exact ⟨rfl, rfl⟩
  · rw [hv.futuresRange]
    exact List.nodup_range _
  · rw [hv.printedPrefix.2]
    simp
  · simp [SharedFuture.get, hr]
  · simp [SharedFuture.get, hr]

theorem C12_single_read_witness :
    futureGet 1 (workerRun 0 21 withFailure) = some (.error "task failed") ∧
    Future.get ⟨some 1⟩ (workerRun 0 21 withFailure)
      = some (.ofOutcome (.error "task failed"), ⟨none⟩) ∧
    ((Future.get ⟨some 1⟩ (workerRun 0 21 withFailure)).bind fun r =>
      Future.get r.2 (workerRun 0 21 withFailure)) = some (.noState, ⟨none⟩) ∧
    getCalls (roundRobin 90) initSys = List.range (run (roundRobin 90) initSys).futPos ∧
    (getCalls (roundRobin 90) initSys).Nodup ∧
    (∀ l s0 j, getCall l s0 = some j →
      s0.futures.get? s0.futPos = some j ∧
      ∃ r, Future.get ⟨some j⟩ s0 = some (r, ⟨none⟩)) ∧
    (run (roundRobin 90) initSys).printed
      = (getCalls (roundRobin 90) initSys).map (fun (j : Nat) => heavyTask ((j : Int) + 1)) ∧
    (readsDone (run (roundRobin 90) initSys).mainPc = true →
      getCalls (roundRobin 90) initSys = (run (roundRobin 90) initSys).futures ∧
      getCalls (roundRobin 90) initSys = List.range 9) ∧
    (run (roundRobin 90) initSys).mainPc ≠ .terminated ∧
    (run (roundRobin 90) initSys).mainPc = .finished ∧
    getCalls (roundRobin 90) initSys = [0, 1, 2, 3, 4, 5, 6, 7, 8] ∧
    (run (roundRobin 90) initSys).futures.Nodup ∧
    (run (roundRobin 90) initSys).printed.length = (run (roundRobin 90) initSys).futPos ∧
    SharedFuture.get ⟨1⟩ (workerRun 0 21 withFailure)
      = some (.ofOutcome (.error "task failed"), ⟨1⟩) ∧
    ((SharedFuture.get ⟨1⟩ (workerRun 0 21 withFailure)).bind fun r =>
      SharedFuture.get r.2 (workerRun 0 21 withFailure))
      = some (.ofOutcome (.error "task failed"), ⟨1⟩) :=
  ⟨rfl, C12_single_read (workerRun 0 21 withFailure) 1 (.error "task failed")
    (roundRobin 90) rfl⟩

end SynchingTasks

namespace Snippets

/-- C13, the claim as written fails: constructing the pool on a machine that
reports zero hardware threads succeeds; no `InvalidConfiguration` is raised. -/
theorem C13_counterexample :
    thread_pool.construct 0 = .ok ⟨false, [], []⟩ ∧
    thread_pool.construct 0 ≠ .error .invalidConfiguration :=
  ⟨rfl, fun h => by simp [thread_pool.construct] at h⟩

/-- C13 (amended): the `thread_pool` constructor takes no worker count and
rejects nothing: whatever `hardware_concurrency()` reports, zero included,
construction succeeds with `done` false and an empty task queue. -/
theorem C13_construction_never_rejects (hardware_concurrency : Nat) :
    ∃ p, thread_pool.construct hardware_concurrency = .ok p ∧ p.done = false ∧
      p.task_queue.length = 0 :=
  ⟨⟨false, [], []⟩, rfl, rfl, rfl⟩

/-- C14: the constructor reads a thread count of 4 and the constructed pool
holds no worker thread. -/
theorem C14_no_worker_spawned :
    (thread_pool.construct 4).map (fun p => p.threads.length) = .ok 0 ∧
    ∀ hardware_concurrency p, thread_pool.construct hardware_concurrency = .ok p →
      p.threads.length = 0 := by
  refine ⟨rfl, fun hc p h => ?_⟩
  simp only [thread_pool.construct, Except.ok.injEq] at h
  subst h
  rfl

/-- C15: the first submitted callable evaluates `5 * 2` and returns nothing:
the value 10 is not what it hands to its future. -/
theorem C15_first_callable_returns_nothing :
    future1_task () = .nothing ∧ future1_task () ≠ .value 10 :=
  ⟨rfl, fun h => by simp [future1_task] at h⟩

/-- C16: the second submitted callable, `[](int x) { return x * x}` called with
5, returns 25, the square of its argument, and not the 10 of the comment of
line 37; it returns the square for every argument whose square is an `int`. -/
theorem C16_second_callable_returns_square :
    future2_task 5 = 25 ∧ future2_task 5 ≠ 10 ∧
    ∀ x : Int, -46340 ≤ x → x ≤ 46340 → future2_task x = x * x := by
  refine ⟨rfl, by decide, fun x h1 h2 => ?_⟩
  unfold future2_task
  apply SynchingTasks.wrapInt32_eq <;> nlinarith

end Snippets


namespace Tutorial2

/-- C17 (thread_guard): the destructor of a `thread_guard` completes without
throwing; it calls `join()` on the referenced thread exactly when that thread
is joinable at destruction time, which then has run to its end, and otherwise
leaves the thread object as it was; afterwards the thread is not joinable. In
function `f` the guarded thread is joined once at scope exit. -/
theorem C17_guard_joins_iff_joinable (g : thread_guard) (threadStatements : Nat) :
    (∃ t, g.destroy = .ok t ∧ t.joinable = false ∧
      (t.joins = g.t.joins + 1 ↔ g.t.joinable = true) ∧
      (g.t.joinable = true → g.t.join = .ok t ∧ t.remaining = 0) ∧
      (g.t.joinable = false → t = g.t)) ∧
    ∃ t, f threadStatements = .ok t ∧ t.joinable = false ∧ t.joins = 1 ∧ t.remaining = 0 := by
  refine ⟨?_, ⟨⟨false, 0, 1⟩, rfl, rfl, rfl, rfl⟩⟩
  obtain ⟨⟨j, r, n⟩⟩ := g
  cases j
  · exact ⟨⟨false, r, n⟩, rfl, rfl, by simp, by simp, fun _ => rfl⟩
  · exact ⟨⟨false, 0, n + 1⟩, rfl, rfl, by simp, by simp [Thread.join], by simp⟩

end Tutorial2

namespace MemoryModelAtomicTypes

/-- C18 (atomic_flag snippet): `ATOMIC_FLAG_INIT` is the clear state; after
`f.clear()` the call `f.test_and_set()` of line 231 returns false, the previous
state, and leaves the flag set; `test_and_set()` returns the previous state
and sets the flag whatever the state, so a second `test_and_set()` with no
`clear()` in between returns true. -/
theorem C18_flag_snippet :
    ATOMIC_FLAG_INIT.isSet = false ∧
    flagSnippet.1 = false ∧ flagSnippet.2.isSet = true ∧
    flagSnippet.2.test_and_set.1 = true ∧
    ∀ f : atomic_flag, f.clear.isSet = false ∧ f.test_and_set.1 = f.isSet ∧
      f.test_and_set.2.isSet = true ∧ f.test_and_set.2.test_and_set.1 = true :=
  ⟨rfl, rfl, rfl, rfl, fun _ => ⟨rfl, rfl, rfl, rfl⟩⟩

end MemoryModelAtomicTypes

namespace SynchingTasks

set_option maxRecDepth 100000

/-- C19 (dequeue on a non-empty queue): in every state reached from a state in
which the mutex is consistent with the program points, such as the initial
state of `main` with any number of threads running `workerThread`, a worker
that stands at `taskQueue.front()` (line 29) or at `taskQueue.pop_front()`
(line 30) finds the queue non-empty: it passed the wait predicate, did not
break at line 28 and has held the mutex since; no worker has called `front()`
or `pop_front()` on an empty queue. -/
theorem C19_dequeue_never_empty (s0 : Sys) (sched : List Label) (i : Nat)
    (h0 : LockInv s0) :
    (((run sched s0).workers i).pc = .takeFront → (run sched s0).taskQueue ≠ []) ∧
    (((run sched s0).workers i).pc = .popFront → (run sched s0).taskQueue ≠ []) ∧
    (((run sched s0).workers i).pc = .takeFront ∨ ((run sched s0).workers i).pc = .popFront →
      (run sched s0).queueMutex = some (.worker i)) ∧
    ((run sched s0).workers i).pc ≠ .undefinedBehaviour := by
  have h := (lockInv_run sched s0 h0).worker i
  refine ⟨h.frontSafe, fun hp => ?_, fun hp => ?_, h.defined⟩
  · obtain ⟨t, rest, hq, _⟩ := h.popSafe hp
    simp [hq]
  · rw [h.owns]
    rcases hp with hp | hp <;> simp [hp]

theorem C19_dequeue_never_empty_witness :
    LockInv initSys ∧
    ((run (roundRobin 9) initSys).workers 0).pc = .takeFront ∧
    (((run (roundRobin 9) initSys).workers 0).pc = .takeFront →
      (run (roundRobin 9) initSys).taskQueue ≠ []) ∧
    (((run (roundRobin 9) initSys).workers 0).pc = .popFront →
      (run (roundRobin 9) initSys).taskQueue ≠ []) ∧
    (((run (roundRobin 9) initSys).workers 0).pc = .takeFront ∨
        ((run (roundRobin 9) initSys).workers 0).pc = .popFront →
      (run (roundRobin 9) initSys).queueMutex = some (.worker 0)) ∧
    ((run (roundRobin 9) initSys).workers 0).pc ≠ .undefinedBehaviour :=
  ⟨lockInv_init, by decide, C19_dequeue_never_empty initSys (roundRobin 9) 0 lockInv_init⟩

end SynchingTasks

namespace WeaponsAtomicOp

/-- C20 (cooldown counter in range): from `cooldownCounter = 0`, with one
thread running `operatorInterface` and one running `cooldownHandler`,
interleaved statement by statement, every reachable state has
`0 ≤ cooldownCounter ≤ 5`; both bounds are reached. -/
theorem C20_cooldown_in_range (sched : List Label) :
    0 ≤ (run sched init).cooldownCounter ∧ (run sched init).cooldownCounter ≤ 5 ∧
    (run (sampleSchedule.take 4) init).cooldownCounter = 5 ∧
    (run sampleSchedule init).cooldownCounter = 4 ∧
    (run [] init).cooldownCounter = 0 := by
  have h := (cooldown_inv_run sched init cooldown_inv_init).range
  exact ⟨h.1, h.2, by decide, by decide, rfl⟩

end WeaponsAtomicOp

namespace WeaponsAtomicOp

/-- C21 (fireWeapons fires iff cooled down): for every value of
`cooldownCounter`, a call of `fireWeapons` that no other thread interferes with
writes the message of the cannon and stores 5 if and only if the counter was 0;
when the counter was not 0 it writes the message of the cooling and leaves the
counter as it was. Exactly one message is written, nothing else changes, and
the call is the operator thread taking its steps from the load of line 9 to the
sleep of line 36 with no step of the cooldown thread in between. -/
theorem C21_fires_iff_cooled_down (s : State) :
    ((fireWeapons s).output = s.output ++ ["[Weapons] Plasma cannon fired. \n"] ∧
        (fireWeapons s).cooldownCounter = 5 ↔ s.cooldownCounter = 0) ∧
    ((fireWeapons s).output = s.output ++ ["[Weapons] Plasma cannon fired. \n"] ↔
      s.cooldownCounter = 0) ∧
    (s.cooldownCounter ≠ 0 →
      (fireWeapons s).output = s.output ++ ["[Weapons] Still cooling down..."] ∧
      (fireWeapons s).cooldownCounter = s.cooldownCounter) ∧
    ((fireWeapons s).opPc = s.opPc ∧ (fireWeapons s).i = s.i ∧ (fireWeapons s).hPc = s.hPc ∧
      (fireWeapons s).counter = s.counter) ∧
    ∃ n, run (List.replicate n .operator) { s with opPc := .load }
      = { fireWeapons s with opPc := .sleep } := by
  by_cases hc : s.cooldownCounter = 0
  · refine ⟨?_, ?_, ?_, ?_, 3, ?_⟩ <;>
      simp [fireWeapons, hc, run, step, operatorStep, List.replicate]
  · refine ⟨?_, ?_, ?_, ?_, 2, ?_⟩ <;>
      simp [fireWeapons, hc, run, step, operatorStep, List.replicate]

end WeaponsAtomicOp
